import Mathlib

/-!
Shallow Lean embedding of the `tinywasm/depfind` Go package: the dependency
graph cache, its incremental maintenance under file-system events, and the
ownership resolver `ThisFileIsMine`.

External collaborators (the Go toolchain `go list`, `go/build` package
resolution, the `go/parser` syntax check, and the file system) are modelled
by an explicit environment record `Env`; everything the repository itself
implements (path handling on clean slash-separated paths, the cache data
structures, the event protocol, the import-line parser, the cycle-guarded
transitive query) is translated function by function from the source.

Go maps are modelled as association lists (`alookup`/`ainsert`/`aerase`)
with Go's zero-value indexing (`aget0`); Go strings are handled through
their character lists so that every definition is kernel-computable.
-/

namespace DepFind

/-! ## Association-list model of Go maps -/

def alookup {α : Type} : List (String × α) → String → Option α
  | [], _ => none
  | (k, v) :: rest, key => if key = k then some v else alookup rest key

/-- Go's `m[k]` zero-value read for `map[string][]string`. -/
def aget0 (m : List (String × List String)) (k : String) : List String :=
  (alookup m k).getD []

/-- Go's `m[k] = v` assignment: replace the binding if present, else append. -/
def ainsert {α : Type} : List (String × α) → String → α → List (String × α)
  | [], k, v => [(k, v)]
  | (k0, v0) :: rest, k, v =>
    if k0 = k then (k0, v) :: rest else (k0, v0) :: ainsert rest k v

/-- Go's `delete(m, k)` on a map with unique keys. -/
def aerase {α : Type} : List (String × α) → String → List (String × α)
  | [], _ => []
  | (k0, v0) :: rest, k => if k0 = k then rest else (k0, v0) :: aerase rest k

/-- model of the source helper `contains(slice []string, item string) bool`. -/
def containsString (slice : List String) (item : String) : Bool :=
  slice.contains item

/-- model of the source helper `removeString`: drop the first occurrence. -/
def removeString : List String → String → List String
  | [], _ => []
  | s :: rest, item => if s = item then rest else s :: removeString rest item

/-! ## Path model

Go's `path/filepath` functions, modelled for clean slash-separated paths
(no `.` or `..` segments, no duplicate or trailing slashes), which is the
shape of every path the package manipulates after its own normalisation. -/

/-- model of `filepath.IsAbs`: the path starts with a slash. -/
def isAbs (p : String) : Bool :=
  match p.data with
  | [] => false
  | c :: _ => c == '/'

/-- model of `filepath.Join` on two clean paths. -/
def jn (a b : String) : String := a ++ "/" ++ b

/-- model of `strings.TrimPrefix`. -/
def trimPfx (s pre : String) : String :=
  if pre.data.isPrefixOf s.data then String.mk (s.data.drop pre.data.length) else s

/-- Split a character list on a separator, modelling `strings.Split` with a
one-character separator. -/
def splitOnChar (sep : Char) : List Char → List (List Char)
  | [] => [[]]
  | c :: rest =>
    let r := splitOnChar sep rest
    if c = sep then [] :: r
    else
      match r with
      | [] => [[c]]
      | hd :: tl => (c :: hd) :: tl

def joinWithSlash : List (List Char) → List Char
  | [] => []
  | [c] => c
  | c :: rest => c ++ '/' :: joinWithSlash rest

/-- model of `filepath.Base` for clean paths. -/
def baseName (p : String) : String :=
  if p = "" then "."
  else
    match (splitOnChar '/' p.data).filter (fun c => c ≠ []) with
    | [] => "/"
    | cs => String.mk (cs.getLastD [])

/-- model of `filepath.Dir` for clean paths. -/
def dirName (p : String) : String :=
  let cs := splitOnChar '/' p.data
  if cs.length ≤ 1 then "."
  else
    let d := joinWithSlash cs.dropLast
    if d = [] then "/" else String.mk d

def lastIdxOf (c : Char) (l : List Char) : Option Nat :=
  match List.findIdx? (fun x => x = c) l.reverse with
  | none => none
  | some i => some (l.length - 1 - i)

/-- model of `filepath.Ext`: the suffix starting at the final dot of the final
path element, empty when that element has no dot. -/
def extName (p : String) : String :=
  let b := (baseName p).data
  match lastIdxOf '.' b with
  | none => ""
  | some i => String.mk (b.drop i)

/-- model of `filepath.Clean` restricted to the already-clean paths this model
manipulates: only the empty path is normalised (to "."). -/
def cleanP (p : String) : String := if p = "" then "." else p

/-- model of `filepath.Rel(base, targ)` restricted to the cases the package relies on:
equality and base-is-a-parent.  The `../`-style results Go would produce in
the remaining cases never match a cache key, so they are collapsed to
`none` and every caller treats `none` as that failed lookup. -/
def relPath (base targ : String) : Option String :=
  if base = targ then some "."
  else if (base.data ++ ['/']).isPrefixOf targ.data then
    some (String.mk (targ.data.drop (base.data.length + 1)))
  else none

/-! ## Data model -/

/-- The projection of `go/build.Package` that the repository reads. -/
structure Pkg where
  name : String
  dir : String
  imports : List String
  testImports : List String
  xtestImports : List String
  goFiles : List String
  testGoFiles : List String
  xtestGoFiles : List String
deriving DecidableEq

/-- The cache state of `GoDepFind` (godepfind.go). -/
structure GoDepFind where
  rootDir : String
  testImports : Bool
  cachedModule : Bool
  packageCache : List (String × Pkg)
  dependencyGraph : List (String × List String)
  reverseDeps : List (String × List String)
  filePathToPackage : List (String × String)
  fileToPackages : List (String × List String)
  mainPackages : List String
deriving DecidableEq

/-- model of `New(rootDir)`. -/
def New (rootDir : String) : GoDepFind :=
  { rootDir := if rootDir = "" then "." else rootDir
    testImports := false
    cachedModule := false
    packageCache := []
    dependencyGraph := []
    reverseDeps := []
    filePathToPackage := []
    fileToPackages := []
    mainPackages := [] }

/-- The external world: file system, working directory, and the Go
toolchain (`go list`, `go/build` imports, `go/parser`).

* `fileSize p`: `os.Stat` for the validator, `none` models a stat error;
* `parseGo p`: the `go/parser` verdict used by `hasValidGoSyntax`:
  `some true` parses, `some false` is an incompleteness-classified syntax
  error, `none` any other error;
* `listPkgs`: the outcome of `listPackages("./...")` (`none` = total failure);
* `importPkg path`: the resolution a `getPackages` step performs for one
  listed package path (directory probing plus `build.ImportDir`);
* `importDir dir`: `build.ImportDir` as used by `importPackageFromDir`. -/
structure Env where
  cwd : String
  fileExists : String → Bool
  fileSize : String → Option Nat
  parseGo : String → Option Bool
  readFile : String → Option String
  listPkgs : Option (List String)
  importPkg : String → Option Pkg
  importDir : String → Option Pkg

/-- model of `filepath.Abs`: resolve a relative path against the working directory. -/
def absIn (env : Env) (p : String) : String :=
  if isAbs p then p else jn env.cwd p

/-! ## Validator (validation.go) -/

/-- model of `hasValidGoSyntax`: delegate to `go/parser` through the
environment and classify its outcome the way the source does. -/
def hasValidGoSyntax (env : Env) (filePath : String) : Except String Bool :=
  match env.parseGo filePath with
  | some true => .ok true
  | some false => .ok false
  | none => .error "parse"

/-- model of `GoFileValidator.IsValidGoFile`. -/
def IsValidGoFile (env : Env) (filePath : String) : Except String Bool :=
  match env.fileSize filePath with
  | none => .error "stat"
  | some sz =>
    if sz = 0 then .ok false
    else if extName filePath ≠ ".go" then .ok false
    else hasValidGoSyntax env filePath

/-! ## File-level import parser (godepfind.go) -/

def isSpc (c : Char) : Bool := c = ' ' || c = '\t' || c = '\n' || c = '\r'

/-- model of `strings.TrimSpace` (ASCII whitespace). -/
def trimChars (l : List Char) : List Char :=
  ((l.dropWhile isSpc).reverse.dropWhile isSpc).reverse

/-- Text before the first `//`, modelling the comment strip in
`extractImportPath`. -/
def dropLineComment : List Char → List Char
  | [] => []
  | '/' :: '/' :: _ => []
  | c :: rest => c :: dropLineComment rest

def dropPfxList (pre l : List Char) : List Char :=
  if pre.isPrefixOf l then l.drop pre.length else l

/-- model of `extractImportPath`: strip comment and the `import ` keyword,
then take what lies between the first and the last double quote. -/
def extractImportPath (line0 : List Char) : List Char :=
  let line1 := trimChars (dropLineComment line0)
  if line1 = [] then []
  else
    let line2 := trimChars (dropPfxList ("import ".data) line1)
    match List.findIdx? (fun x => x = '\x22') line2 with
    | none => []
    | some s =>
      match lastIdxOf '\x22' line2 with
      | none => []
      | some e => if e ≤ s then [] else (line2.drop (s + 1)).take (e - s - 1)

/-- The line loop of `parseFileImports`: single-line imports and
`import (` … `)` blocks. -/
def parseImportLines : List (List Char) → Bool → List String
  | [], _ => []
  | l :: rest, inBlock =>
    let line := trimChars l
    if line = ("import (".data) then parseImportLines rest true
    else if inBlock ∧ line = (")".data) then parseImportLines rest false
    else if inBlock then
      (let p := extractImportPath line
       if p = [] then [] else [String.mk p]) ++ parseImportLines rest true
    else if ("import ".data).isPrefixOf line then
      (let p := extractImportPath line
       if p = [] then [] else [String.mk p]) ++ parseImportLines rest inBlock
    else parseImportLines rest inBlock

/-- model of `parseFileImports`: read the file and scan its lines. -/
def parseFileImports (env : Env) (filePath : String) : Except String (List String) :=
  match env.readFile filePath with
  | none => .error "read"
  | some content => .ok (parseImportLines (splitOnChar '\n' content.data) false)

/-! ## Cycle-guarded transitive dependency query (cache.go) -/

def depKeys (dg : List (String × List String)) : Finset String :=
  (dg.map Prod.fst).toFinset

mutual

/-- model of `cachedImports(path, targetPkg, visited)`: depth-first search
over the cached forward graph, with the shared visited set threaded through
the recursion exactly as the Go map is.  (The `++ visited` in the recursive
call only re-adds elements the callee's visited set already contains, which
keeps the returned set membership-equal to Go's shared map while giving the
termination measure below.) -/
def cachedImports (dg : List (String × List String)) (path targetPkg : String)
    (visited : List String) : Bool × List String :=
  if visited.contains path then (false, visited)
  else
    let v1 := path :: visited
    if path = targetPkg then (true, v1)
    else
      match h : alookup dg path with
      | none => (false, v1)
      | some deps => cachedImportsDeps dg targetPkg deps v1
termination_by ((depKeys dg \ visited.toFinset).card, 0)
decreasing_by
  apply Prod.Lex.left
  have hkey : path ∈ depKeys dg := by
    have hgen : ∀ (m : List (String × List String)),
        alookup m path = some deps → path ∈ depKeys m := by
      intro m
      induction m with
      | nil => intro hx; simp [alookup] at hx
      | cons hd tl ih =>
        intro hx
        simp only [alookup] at hx
        by_cases hp : path = hd.1
        · simp [depKeys, hp]
        · simp [hp] at hx
          have hmem := ih hx
          rcases hd with ⟨k, v2⟩
          simp [depKeys] at hmem ⊢
          right
          exact hmem
    exact hgen dg h
  have hmem : path ∈ depKeys dg \ visited.toFinset := by
    simp only [Finset.mem_sdiff]
    refine ⟨hkey, ?_⟩
    simpa [List.mem_toFinset] using (by simpa using ‹¬ visited.contains path = true›)
  calc (depKeys dg \ (path :: visited).toFinset).card
      = ((depKeys dg \ visited.toFinset).erase path).card := by
        congr 1
        ext x
        simp [Finset.mem_sdiff, Finset.mem_erase, List.mem_toFinset]
        tauto
    _ < (depKeys dg \ visited.toFinset).card := Finset.card_erase_lt_of_mem hmem

/-- The `for _, dep := range deps` loop inside `cachedImports`. -/
def cachedImportsDeps (dg : List (String × List String)) (targetPkg : String)
    (deps : List String) (visited : List String) : Bool × List String :=
  match deps with
  | [] => (false, visited)
  | dep :: rest =>
    if dep = targetPkg then (true, visited)
    else
      let r := cachedImports dg dep targetPkg visited
      if r.1 then r else cachedImportsDeps dg targetPkg rest (r.2 ++ visited)
termination_by ((depKeys dg \ visited.toFinset).card, deps.length + 1)
decreasing_by
  · apply Prod.Lex.right
    omega
  · have hsub : depKeys dg \ (r.2 ++ visited).toFinset ⊆ depKeys dg \ visited.toFinset := by
      apply Finset.sdiff_subset_sdiff (le_refl _)
      intro x hx
      simp [List.mem_toFinset] at hx ⊢
      exact Or.inr hx
    have hle := Finset.card_le_card hsub
    rcases lt_or_eq_of_le hle with hlt | heq
    · exact Prod.Lex.left _ _ hlt
    · rw [heq]
      apply Prod.Lex.right
      simp only [List.length_cons]
      omega

end

/-- model of `cachedMainImportsPackage`: run the query with a fresh visited set. -/
def cachedMainImportsPackage (g : GoDepFind) (mainPath targetPkg : String) : Bool :=
  (cachedImports g.dependencyGraph mainPath targetPkg []).1

/-- The edge relation of the cached forward dependency graph. -/
def importsEdge (dg : List (String × List String)) (a b : String) : Prop :=
  b ∈ aget0 dg a

/-! ## Catalog scan and full rebuild (cache.go)

Stateful operations follow Go's pointer semantics: each returns its
`(result, updated state)` pair, and an error result carries whatever
mutations had already been applied to the receiver. -/

/-- model of `getPackages` over the listed package paths: resolve each path
through the environment, failing like the source does on the first path
that cannot be resolved at all; later duplicates overwrite earlier map
entries exactly as in Go. -/
def getPackagesAux (env : Env) : List String → List (String × Pkg) →
    Except String (List (String × Pkg))
  | [], acc => .ok acc
  | p :: rest, acc =>
    match env.importPkg p with
    | none => .error ("cannot import " ++ p)
    | some pkg => getPackagesAux env rest (ainsert acc p pkg)

def getPackages (env : Env) (paths : List String) : Except String (List (String × Pkg)) :=
  getPackagesAux env paths []

/-- The reverse-edge sources a package contributes in `rebuildCache`:
its imports, plus its test imports when `testImports` is enabled. -/
def revImports (ti : Bool) (pkg : Pkg) : List String :=
  pkg.imports ++ (if ti then pkg.testImports ++ pkg.xtestImports else [])

/-- One `g.reverseDeps[imp] = append(g.reverseDeps[imp], pkgPath)` step. -/
def addRevEdge (rd : List (String × List String)) (imp pkgPath : String) :
    List (String × List String) :=
  ainsert rd imp (aget0 rd imp ++ [pkgPath])

/-- The loop of step 3 of `rebuildCache`, one package at a time. -/
def buildGraphsAux (ti : Bool) : List (String × Pkg) →
    List (String × List String) × List (String × List String) →
    List (String × List String) × List (String × List String)
  | [], acc => acc
  | pp :: rest, acc =>
    buildGraphsAux ti rest
      (ainsert acc.1 pp.1 pp.2.imports,
       (revImports ti pp.2).foldl (fun rd imp => addRevEdge rd imp pp.1) acc.2)

/-- Step 3 of `rebuildCache`: build forward graph and reverse index in one
pass over the package snapshot. -/
def buildGraphs (ti : Bool) (pkgs : List (String × Pkg)) :
    List (String × List String) × List (String × List String) :=
  buildGraphsAux ti pkgs ([], [])

/-- The files a package contributes to the indices in `rebuildCache`. -/
def idxFiles (ti : Bool) (pkg : Pkg) : List String :=
  pkg.goFiles ++ (if ti then pkg.testGoFiles ++ pkg.xtestGoFiles else [])

/-- Step 4 of `rebuildCache`: the exact-path index and the by-name index. -/
def buildFileIndex (ti : Bool) (pkgs : List (String × Pkg)) :
    List (String × String) × List (String × List String) :=
  pkgs.foldl
    (fun acc pp =>
      (idxFiles ti pp.2).foldl
        (fun acc2 file =>
          (ainsert acc2.1 (jn pp.2.dir file) pp.1,
           ainsert acc2.2 (baseName file) (aget0 acc2.2 (baseName file) ++ [pp.1])))
        acc)
    ([], [])

/-- model of `rebuildCache`: list all packages, resolve them, and rebuild
every cache structure from that single fresh snapshot.  A listing or
resolution failure leaves the receiver untouched, as in the source, where
the assignments only happen after both steps succeed. -/
def rebuildCache (env : Env) (g : GoDepFind) : Except String Unit × GoDepFind :=
  match env.listPkgs with
  | none => (.error "failed to list packages", g)
  | some allPaths =>
    match getPackages env allPaths with
    | .error e => (.error ("failed to get packages: " ++ e), g)
    | .ok packages =>
      let gr := buildGraphs g.testImports packages
      let fi := buildFileIndex g.testImports packages
      (.ok (),
       { g with
          packageCache := packages
          dependencyGraph := gr.1
          reverseDeps := gr.2
          filePathToPackage := fi.1
          fileToPackages := fi.2
          mainPackages := (packages.filter (fun pp => pp.2.name = "main")).map Prod.fst
          cachedModule := true })

/-- model of `ensureCacheInitialized`: lazy first-time population. -/
def ensureCacheInitialized (env : Env) (g : GoDepFind) : Except String Unit × GoDepFind :=
  if g.cachedModule then (.ok (), g) else rebuildCache env g

/-! ## Locating the package of a file (godepfind.go) -/

/-- The per-package file probe of `findPackageContainingFileByPath`:
does any member file of `pkg`, made absolute, equal `absPath`? -/
def pkgHasFileAbs (env : Env) (absPath : String) (pkg : Pkg) (files : List String) : Bool :=
  files.any (fun f =>
    let cand := if isAbs f then f else jn pkg.dir f
    absIn env cand == absPath)

/-- The cached scan of `findPackageContainingFileByPath`: first package in
iteration order owning the file. -/
def scanCacheForFile (env : Env) (ti : Bool) (absPath : String) :
    List (String × Pkg) → Option String
  | [] => none
  | (pkgPath, pkg) :: rest =>
    if pkgHasFileAbs env absPath pkg
        (pkg.goFiles ++ (if ti then pkg.testGoFiles ++ pkg.xtestGoFiles else [])) then
      some pkgPath
    else scanCacheForFile env ti absPath rest

/-- The fallback full re-scan of `findPackageContainingFileByPath`
(only `GoFiles` are checked there). -/
def scanFreshForFile (env : Env) (absPath : String) :
    List (String × Pkg) → Option String
  | [] => none
  | (pkgPath, pkg) :: rest =>
    if pkgHasFileAbs env absPath pkg pkg.goFiles then some pkgPath
    else scanFreshForFile env absPath rest

/-- model of `findPackageContainingFileByPath`: ensure the cache, scan the
cached packages, and fall back to a fresh catalog scan; the empty string
models "file not found in any package". -/
def findPackageContainingFileByPath (env : Env) (g : GoDepFind) (filePath : String) :
    Except String String × GoDepFind :=
  match ensureCacheInitialized env g with
  | (.error e, g1) => (.error e, g1)
  | (.ok _, g1) =>
    let absPath := absIn env filePath
    match scanCacheForFile env g1.testImports absPath g1.packageCache with
    | some pkgPath => (.ok pkgPath, g1)
    | none =>
      match env.listPkgs with
      | none => (.error "failed to list packages", g1)
      | some allPaths =>
        match getPackages env allPaths with
        | .error e => (.error e, g1)
        | .ok pkgs =>
          match scanFreshForFile env absPath pkgs with
          | some p => (.ok p, g1)
          | none => (.ok "", g1)

/-! ## Event handlers, current cache file (cache.go, the variant whose
non-entry-point writes go through `refreshPackageCache`) -/

/-- model of this variant's `invalidatePackageCache`: drop only the
package-cache entry and the forward edge list of the owning package;
lookup errors are swallowed (`return nil`), and the reverse index is
deliberately left untouched by this variant. -/
def invalidatePackageCache (env : Env) (g : GoDepFind) (filePath : String) :
    Except String Unit × GoDepFind :=
  match findPackageContainingFileByPath env g filePath with
  | (.error _, g1) => (.ok (), g1)
  | (.ok pkg, g1) =>
    if pkg = "" then (.ok (), g1)
    else
      (.ok (),
       { g1 with
          packageCache := aerase g1.packageCache pkg
          dependencyGraph := aerase g1.dependencyGraph pkg })

/-- model of `invalidatePackageCacheOnly`: drop only the package-cache
entry, preserving graph and indices. -/
def invalidatePackageCacheOnly (env : Env) (g : GoDepFind) (filePath : String) :
    Except String Unit × GoDepFind :=
  match findPackageContainingFileByPath env g filePath with
  | (.error _, g1) => (.ok (), g1)
  | (.ok pkg, g1) =>
    if pkg = "" then (.ok (), g1)
    else (.ok (), { g1 with packageCache := aerase g1.packageCache pkg })

/-- model of `handleFileCreate`: record the file in both indices (by-name
without duplicates) and invalidate the owning package. -/
def handleFileCreate (env : Env) (g : GoDepFind) (filePath : String) :
    Except String Unit × GoDepFind :=
  match findPackageContainingFileByPath env g filePath with
  | (.error e, g1) => (.error e, g1)
  | (.ok pkg, g1) =>
    if pkg = "" then (.ok (), g1)
    else
      let absPath := absIn env filePath
      let g2 := { g1 with filePathToPackage := ainsert g1.filePathToPackage absPath pkg }
      let fileName := baseName filePath
      let g3 :=
        if containsString (aget0 g2.fileToPackages fileName) pkg then g2
        else
          { g2 with
             fileToPackages :=
               ainsert g2.fileToPackages fileName (aget0 g2.fileToPackages fileName ++ [pkg]) }
      invalidatePackageCache env g3 filePath

/-- model of `handleFileRemove`: drop the exact-path entry, drop the
package from the by-name list (lookup errors ignored), and invalidate. -/
def handleFileRemove (env : Env) (g : GoDepFind) (filePath : String) :
    Except String Unit × GoDepFind :=
  let g1 :=
    if filePath ≠ "" then
      { g with filePathToPackage := aerase g.filePathToPackage (absIn env filePath) }
    else g
  let step2 :=
    if filePath ≠ "" then
      match findPackageContainingFileByPath env g1 filePath with
      | (.error _, g2) => g2
      | (.ok pkg, g2) =>
        if pkg = "" then g2
        else
          let fileName := baseName filePath
          { g2 with
             fileToPackages :=
               ainsert g2.fileToPackages fileName
                 (removeString (aget0 g2.fileToPackages fileName) pkg) }
    else g1
  invalidatePackageCache env step2 filePath

/-- model of `addReverseDep`. -/
def addReverseDep (g : GoDepFind) (target dependent : String) : GoDepFind :=
  let cur := aget0 g.reverseDeps target
  if cur.contains dependent then g
  else { g with reverseDeps := ainsert g.reverseDeps target (cur ++ [dependent]) }

/-- model of `removeReverseDep`: remove the first occurrence, touching the
map only when the key exists. -/
def removeReverseDep (g : GoDepFind) (target dependent : String) : GoDepFind :=
  match alookup g.reverseDeps target with
  | none => g
  | some deps =>
    if deps.contains dependent then
      { g with reverseDeps := ainsert g.reverseDeps target (removeString deps dependent) }
    else g

/-- model of `refreshPackageCache`: re-resolve only the owning package's
declared dependencies, replace its forward edges, and apply the diff-based
reverse-index update; a file not present in the cache is treated as a
creation, and a failed re-import aborts without touching the graph. -/
def refreshPackageCache (env : Env) (g : GoDepFind) (filePath : String) :
    Except String Unit × GoDepFind :=
  match findPackageContainingFileByPath env g filePath with
  | (.error e, g1) => (.error e, g1)
  | (.ok targetPkgPath, g1) =>
    if targetPkgPath = "" then handleFileCreate env g1 filePath
    else
      match alookup g1.packageCache targetPkgPath with
      | none => handleFileCreate env g1 filePath
      | some pkg =>
        match env.importDir pkg.dir with
        | none => (.error ("failed to refresh package " ++ targetPkgPath), g1)
        | some newPkg =>
          let g2 := { g1 with packageCache := ainsert g1.packageCache targetPkgPath newPkg }
          let oldImports := aget0 g2.dependencyGraph targetPkgPath
          let newImports := newPkg.imports ++
            (if g2.testImports then newPkg.testImports ++ newPkg.xtestImports else [])
          let g3 := { g2 with
            dependencyGraph := ainsert g2.dependencyGraph targetPkgPath newImports }
          let g4 := oldImports.foldl
            (fun acc imp =>
              if newImports.contains imp then acc else removeReverseDep acc imp targetPkgPath)
            g3
          let g5 := newImports.foldl
            (fun acc imp =>
              if oldImports.contains imp then acc else addReverseDep acc imp targetPkgPath)
            g4
          (.ok (), g5)

/-- model of `isSameFile`. -/
def isSameFile (env : Env) (g : GoDepFind) (filePath1 filePath2 : String) : Bool :=
  let abs1 := absIn env filePath1
  let abs2 := absIn env filePath2
  let abs2b := if isAbs filePath2 then abs2 else absIn env (jn g.rootDir filePath2)
  let abs1b := if isAbs filePath1 then abs1 else absIn env (jn g.rootDir filePath1)
  abs1b == abs2b

/-- model of `rescanMainPackageDependencies`: a full cache rebuild. -/
def rescanMainPackageDependencies (env : Env) (g : GoDepFind) (_ : String) :
    Except String Unit × GoDepFind :=
  rebuildCache env g

/-- model of `updateCacheForFileWithContext` (current variant): writes to
the handler's own main file trigger a full rebuild, other writes go
through `refreshPackageCache`, create/remove/rename use the handlers
above, and any other event is a no-op after lazy population. -/
def updateCacheForFileWithContext (env : Env) (g : GoDepFind)
    (filePath event handlerMainFile : String) : Except String Unit × GoDepFind :=
  match ensureCacheInitialized env g with
  | (.error e, g1) => (.error e, g1)
  | (.ok _, g1) =>
    if event = "write" then
      if handlerMainFile ≠ "" ∧ isSameFile env g1 filePath handlerMainFile = true then
        rescanMainPackageDependencies env g1 filePath
      else refreshPackageCache env g1 filePath
    else if event = "create" then handleFileCreate env g1 filePath
    else if event = "remove" then handleFileRemove env g1 filePath
    else if event = "rename" then
      match handleFileRemove env g1 filePath with
      | (.error e, g2) => (.error e, g2)
      | (.ok _, g2) => handleFileCreate env g2 filePath
    else (.ok (), g1)

/-! ## Event handlers, other cache-file variant shipped in the repository
(its `invalidatePackageCache` also strips reverse entries and incoming
forward edges, and its non-entry-point writes only drop the package-cache
entry) -/

/-- model of the other variant's `invalidatePackageCache`: additionally
deletes the package's reverse-deps entry and removes the package from every
other package's forward edge list (first occurrence each). -/
def invalidatePackageCacheV2 (env : Env) (g : GoDepFind) (filePath : String) :
    Except String Unit × GoDepFind :=
  match findPackageContainingFileByPath env g filePath with
  | (.error _, g1) => (.ok (), g1)
  | (.ok pkg, g1) =>
    if pkg = "" then (.ok (), g1)
    else
      let dg1 := aerase g1.dependencyGraph pkg
      (.ok (),
       { g1 with
          packageCache := aerase g1.packageCache pkg
          dependencyGraph := dg1.map (fun kv => (kv.1, removeString kv.2 pkg))
          reverseDeps := aerase g1.reverseDeps pkg })

/-- model of `handleFileCreate` as compiled against the other variant's
`invalidatePackageCache`. -/
def handleFileCreateV2 (env : Env) (g : GoDepFind) (filePath : String) :
    Except String Unit × GoDepFind :=
  match findPackageContainingFileByPath env g filePath with
  | (.error e, g1) => (.error e, g1)
  | (.ok pkg, g1) =>
    if pkg = "" then (.ok (), g1)
    else
      let absPath := absIn env filePath
      let g2 := { g1 with filePathToPackage := ainsert g1.filePathToPackage absPath pkg }
      let fileName := baseName filePath
      let g3 :=
        if containsString (aget0 g2.fileToPackages fileName) pkg then g2
        else
          { g2 with
             fileToPackages :=
               ainsert g2.fileToPackages fileName (aget0 g2.fileToPackages fileName ++ [pkg]) }
      invalidatePackageCacheV2 env g3 filePath

/-- model of `handleFileRemove` as compiled against the other variant's
`invalidatePackageCache`. -/
def handleFileRemoveV2 (env : Env) (g : GoDepFind) (filePath : String) :
    Except String Unit × GoDepFind :=
  let g1 :=
    if filePath ≠ "" then
      { g with filePathToPackage := aerase g.filePathToPackage (absIn env filePath) }
    else g
  let step2 :=
    if filePath ≠ "" then
      match findPackageContainingFileByPath env g1 filePath with
      | (.error _, g2) => g2
      | (.ok pkg, g2) =>
        if pkg = "" then g2
        else
          let fileName := baseName filePath
          { g2 with
             fileToPackages :=
               ainsert g2.fileToPackages fileName
                 (removeString (aget0 g2.fileToPackages fileName) pkg) }
    else g1
  invalidatePackageCacheV2 env step2 filePath

/-- model of the other variant's `updateCacheForFileWithContext`: identical
branch structure, but a write outside the handler's main file only calls
`invalidatePackageCacheOnly`. -/
def updateCacheForFileWithContextV2 (env : Env) (g : GoDepFind)
    (filePath event handlerMainFile : String) : Except String Unit × GoDepFind :=
  match ensureCacheInitialized env g with
  | (.error e, g1) => (.error e, g1)
  | (.ok _, g1) =>
    if event = "write" then
      if handlerMainFile ≠ "" ∧ isSameFile env g1 filePath handlerMainFile = true then
        rescanMainPackageDependencies env g1 filePath
      else invalidatePackageCacheOnly env g1 filePath
    else if event = "create" then handleFileCreateV2 env g1 filePath
    else if event = "remove" then handleFileRemoveV2 env g1 filePath
    else if event = "rename" then
      match handleFileRemoveV2 env g1 filePath with
      | (.error e, g2) => (.error e, g2)
      | (.ok _, g2) => handleFileCreateV2 env g2 filePath
    else (.ok (), g1)

/-! ## Ownership resolver (godepfind.go) -/

/-- model of `isMainPackage`. -/
def isMainPackage (g : GoDepFind) (pkgPath : String) : Bool :=
  g.mainPackages.contains pkgPath

/-- model of `handlerFileImportsPackage`: parse the handler's own file and
check its imports directly, then transitively through the cached graph.
Initialization or parse failures yield `false`, as in the source. -/
def handlerFileImportsPackage (env : Env) (g : GoDepFind)
    (handlerFileRelativePath targetPkg : String) : Bool × GoDepFind :=
  match ensureCacheInitialized env g with
  | (.error _, g1) => (false, g1)
  | (.ok _, g1) =>
    let handlerAbsPath :=
      if isAbs handlerFileRelativePath then handlerFileRelativePath
      else jn g1.rootDir handlerFileRelativePath
    match parseFileImports env handlerAbsPath with
    | .error _ => (false, g1)
    | .ok imports =>
      if imports.contains targetPkg then (true, g1)
      else (imports.any (fun imp => cachedMainImportsPackage g1 imp targetPkg), g1)

/-- model of `doesPackageBelongToHandler`: a main target package is owned
iff its directory matches the handler's directory (base-name fallback when
the cache lacks directory metadata or the directory is not under the
root); otherwise ownership follows `handlerFileImportsPackage`. -/
def doesPackageBelongToHandler (env : Env) (g : GoDepFind)
    (targetPkg mainInputFileRelativePath : String) : Bool × GoDepFind :=
  let handlerDir := dirName mainInputFileRelativePath
  if isMainPackage g targetPkg then
    match alookup g.packageCache targetPkg with
    | some pkg =>
      match relPath g.rootDir pkg.dir with
      | some relPkgDir => (cleanP relPkgDir == cleanP handlerDir, g)
      | none => (baseName targetPkg == baseName handlerDir, g)
    | none => (baseName targetPkg == baseName handlerDir, g)
  else handlerFileImportsPackage env g mainInputFileRelativePath targetPkg

/-- model of `findPackageForFile`: exact-path index, then the relative-path
fallback against the working directory, then the by-name index's first
candidate; the empty string is the soft miss. -/
def findPackageForFile (env : Env) (g : GoDepFind) (fileAbsPath : String) :
    Except String String × GoDepFind :=
  match ensureCacheInitialized env g with
  | (.error e, g1) => (.error e, g1)
  | (.ok _, g1) =>
    match alookup g1.filePathToPackage fileAbsPath with
    | some pkg => (.ok pkg, g1)
    | none =>
      match (relPath env.cwd fileAbsPath).bind (fun rp => alookup g1.filePathToPackage rp) with
      | some pkg => (.ok pkg, g1)
      | none => (.ok ((aget0 g1.fileToPackages (baseName fileAbsPath)).headD ""), g1)

/-- model of `checkPackageBasedOwnership`. -/
def checkPackageBasedOwnership (env : Env) (g : GoDepFind)
    (mainInputFileRelativePath fileAbsPath : String) : Except String Bool × GoDepFind :=
  match findPackageForFile env g fileAbsPath with
  | (.error e, g1) => (.error e, g1)
  | (.ok targetPkg, g1) =>
    if targetPkg = "" then (.ok false, g1)
    else
      let r := doesPackageBelongToHandler env g1 targetPkg mainInputFileRelativePath
      (.ok r.1, r.2)

/-- model of `ThisFileIsMine`: input validation, path normalisation, the
on-disk check of the handler's main file, the validator gate for `.go`
files, the self-identity match (with its event-driven cache update), and
finally package-based ownership. -/
def ThisFileIsMine (env : Env) (g : GoDepFind)
    (mainInputFileRelativePath fileAbsPath event : String) :
    Except String Bool × GoDepFind :=
  if fileAbsPath = "" then (.error "fileAbsPath cannot be empty", g)
  else if mainInputFileRelativePath = "" then
    (.error "handler mainInputFileRelativePath cannot be empty", g)
  else
    let f1 := if isAbs fileAbsPath then fileAbsPath else jn g.rootDir fileAbsPath
    let fileAbs := absIn env f1
    let handlerMainAbsPath :=
      if isAbs mainInputFileRelativePath then mainInputFileRelativePath
      else jn g.rootDir mainInputFileRelativePath
    if env.fileExists handlerMainAbsPath = false then
      (.error "handler main file does not exist", g)
    else
      match (if extName fileAbs = ".go" then IsValidGoFile env fileAbs else .ok true) with
      | .error e => (.error ("file validation failed: " ++ e), g)
      | .ok false => (.ok false, g)
      | .ok true =>
        let relativeFilePath := trimPfx fileAbs (g.rootDir ++ "/")
        if relativeFilePath = mainInputFileRelativePath then
          match updateCacheForFileWithContext env g fileAbs event mainInputFileRelativePath with
          | (.error e, g1) => (.error ("cache update failed: " ++ e), g1)
          | (.ok _, g1) => (.ok true, g1)
        else checkPackageBasedOwnership env g mainInputFileRelativePath fileAbs

/-! ## Concrete scenarios used by witnesses and counterexamples -/

/-- The cache state of the C7 witness: a three-node cycle A→B→C→A. -/
def cycleG : GoDepFind :=
  { New "/r" with
     cachedModule := true
     dependencyGraph := [("m/a", ["m/b"]), ("m/b", ["m/c"]), ("m/c", ["m/a"])] }

/-- The package snapshot of the shared witness scenario: one main package
with two build-gated main files plus two disjoint library packages. -/
def pwaPkg : Pkg :=
  { name := "main", dir := "/r/pwa",
    imports := ["m/x", "m/y"], testImports := [], xtestImports := [],
    goFiles := ["main.server.go", "main.wasm.go"], testGoFiles := [], xtestGoFiles := [] }

def xPkg : Pkg :=
  { name := "x", dir := "/r/x",
    imports := [], testImports := [], xtestImports := [],
    goFiles := ["x.go"], testGoFiles := [], xtestGoFiles := [] }

def yPkg : Pkg :=
  { name := "y", dir := "/r/y",
    imports := [], testImports := [], xtestImports := [],
    goFiles := ["y.go"], testGoFiles := [], xtestGoFiles := [] }

/-- The environment of the shared witness scenario. -/
def scnEnv : Env :=
  { cwd := "/w"
    fileExists := fun p =>
      p == "/r/pwa/main.server.go" || p == "/r/pwa/main.wasm.go"
    fileSize := fun p =>
      if p == "/r/x/empty.go" then some 0
      else if p == "/r/x/x.go" || p == "/r/y/y.go" || p == "/q/nomatch.go" ||
         p == "/r/pwa/main.server.go" || p == "/r/pwa/main.wasm.go" then some 5 else none
    parseGo := fun _ => some true
    readFile := fun p =>
      if p == "/r/pwa/main.server.go" then some "package main\nimport \x22m/x\x22\n"
      else if p == "/r/pwa/main.wasm.go" then some "package main\nimport \x22m/y\x22\n"
      else none
    listPkgs := some ["m/pwa", "m/x", "m/y"]
    importPkg := fun p =>
      if p == "m/pwa" then some pwaPkg
      else if p == "m/x" then some xPkg
      else if p == "m/y" then some yPkg
      else none
    importDir := fun d =>
      if d == "/r/pwa" then some pwaPkg
      else if d == "/r/x" then some xPkg
      else if d == "/r/y" then some yPkg
      else none }

/-- The populated cache state of the shared witness scenario. -/
def scnG : GoDepFind :=
  { New "/r" with
     cachedModule := true
     packageCache := [("m/pwa", pwaPkg), ("m/x", xPkg), ("m/y", yPkg)]
     dependencyGraph := [("m/pwa", ["m/x", "m/y"]), ("m/x", []), ("m/y", [])]
     reverseDeps := [("m/x", ["m/pwa"]), ("m/y", ["m/pwa"])]
     filePathToPackage :=
       [("/r/pwa/main.server.go", "m/pwa"), ("/r/pwa/main.wasm.go", "m/pwa"),
        ("/r/x/x.go", "m/x"), ("/r/y/y.go", "m/y")]
     fileToPackages :=
       [("main.server.go", ["m/pwa"]), ("main.wasm.go", ["m/pwa"]),
        ("x.go", ["m/x"]), ("y.go", ["m/y"])]
     mainPackages := ["m/pwa"] }

/-- The packages of the C3/C4 counterexample environments. -/
def aPkg : Pkg :=
  { name := "a", dir := "/r/a",
    imports := ["m/b"], testImports := [], xtestImports := [],
    goFiles := ["a.go"], testGoFiles := [], xtestGoFiles := [] }

def bPkg : Pkg :=
  { name := "b", dir := "/r/b",
    imports := ["m/c"], testImports := [], xtestImports := [],
    goFiles := ["b.go"], testGoFiles := [], xtestGoFiles := [] }

def cPkg : Pkg :=
  { name := "c", dir := "/r/c",
    imports := [], testImports := [], xtestImports := [],
    goFiles := ["c.go"], testGoFiles := [], xtestGoFiles := [] }

/-- Environment for the C3/C4 counterexamples: a three-package chain
`m/a → m/b → m/c`. -/
def remEnv : Env :=
  { cwd := "/w"
    fileExists := fun _ => true
    fileSize := fun _ => some 5
    parseGo := fun _ => some true
    readFile := fun _ => none
    listPkgs := some ["m/a", "m/b", "m/c"]
    importPkg := fun p =>
      if p == "m/a" then some aPkg
      else if p == "m/b" then some bPkg
      else if p == "m/c" then some cPkg
      else none
    importDir := fun d =>
      if d == "/r/a" then some aPkg
      else if d == "/r/b" then some bPkg
      else if d == "/r/c" then some cPkg
      else none }

/-- The cache populated by the code itself from `remEnv`. -/
def remG0 : GoDepFind := (rebuildCache remEnv (New "/r")).2

/-- The cache after the code applies a `remove` event for `m/a`'s file. -/
def remG1 : GoDepFind :=
  (updateCacheForFileWithContext remEnv remG0 "/r/a/a.go" "remove" "x/main.go").2

/-- The cache after the code applies a `remove` event for `m/b`'s file on
the freshly populated `remG0` (chain `m/a → m/b → m/c`). -/
def c4G1 : GoDepFind :=
  (updateCacheForFileWithContext remEnv remG0 "/r/b/b.go" "remove" "x/main.go").2


/-- Helper `addOnce l x`: the effect of `addReverseDep` on the touched list. -/
def addOnce (l : List String) (x : String) : List String :=
  if x ∈ l then l else l ++ [x]

/-- The dynamic-dependency scenario, before the edit: entry point `m/app`
imports nothing; `m/db` is an unrelated library. -/
def appPkg0 : Pkg :=
  { name := "main", dir := "/r/app",
    imports := [], testImports := [], xtestImports := [],
    goFiles := ["main.go"], testGoFiles := [], xtestGoFiles := [] }

/-- The dynamic-dependency scenario, after the edit: the entry point now
imports `m/db`. -/
def appPkg1 : Pkg :=
  { name := "main", dir := "/r/app",
    imports := ["m/db"], testImports := [], xtestImports := [],
    goFiles := ["main.go"], testGoFiles := [], xtestGoFiles := [] }

def dbPkg : Pkg :=
  { name := "db", dir := "/r/db",
    imports := [], testImports := [], xtestImports := [],
    goFiles := ["db.go"], testGoFiles := [], xtestGoFiles := [] }

/-- The world before the entry point is edited. -/
def dynEnv0 : Env :=
  { cwd := "/w"
    fileExists := fun p => p == "/r/app/main.go"
    fileSize := fun p =>
      if p == "/r/app/main.go" || p == "/r/db/db.go" then some 5 else none
    parseGo := fun _ => some true
    readFile := fun p =>
      if p == "/r/app/main.go" then some "package main\n" else none
    listPkgs := some ["m/app", "m/db"]
    importPkg := fun p =>
      if p == "m/app" then some appPkg0
      else if p == "m/db" then some dbPkg
      else none
    importDir := fun d =>
      if d == "/r/app" then some appPkg0
      else if d == "/r/db" then some dbPkg
      else none }

/-- The world after the entry point gained `import "m/db"`. -/
def dynEnv1 : Env :=
  { cwd := "/w"
    fileExists := fun p => p == "/r/app/main.go"
    fileSize := fun p =>
      if p == "/r/app/main.go" || p == "/r/db/db.go" then some 5 else none
    parseGo := fun _ => some true
    readFile := fun p =>
      if p == "/r/app/main.go" then some "package main\nimport \x22m/db\x22\n" else none
    listPkgs := some ["m/app", "m/db"]
    importPkg := fun p =>
      if p == "m/app" then some appPkg1
      else if p == "m/db" then some dbPkg
      else none
    importDir := fun d =>
      if d == "/r/app" then some appPkg1
      else if d == "/r/db" then some dbPkg
      else none }

/-- The cache the code populates from the pre-edit world. -/
def dynG0 : GoDepFind := (rebuildCache dynEnv0 (New "/r")).2

/-- The cache after the code processes the write event on the edited
entry-point file. -/
def dynG1 : GoDepFind :=
  (ThisFileIsMine dynEnv1 dynG0 "app/main.go" "/r/app/main.go" "write").2

/-- For the C6 witness: the re-imported `m/x` now declares `m/y`. -/
def xPkgB : Pkg :=
  { name := "x", dir := "/r/x",
    imports := ["m/y"], testImports := [], xtestImports := [],
    goFiles := ["x.go"], testGoFiles := [], xtestGoFiles := [] }

/-- The shared scenario environment with `build.ImportDir` re-resolving
`m/x` to `xPkgB`. -/
def c6Env : Env :=
  { scnEnv with
     importDir := fun d => if d == "/r/x" then some xPkgB else none }

/-! ## Unfolding lemmas for the transitive query -/

theorem ci_step_visited {dg : List (String × List String)} {p t : String}
    {v : List String} (h : p ∈ v) : cachedImports dg p t v = (false, v) := by
  rw [cachedImports]
  simp [h]

theorem ci_step_target {dg : List (String × List String)} {t : String}
    {v : List String} (h : t ∉ v) : cachedImports dg t t v = (true, t :: v) := by
  rw [cachedImports]
  simp [h]

theorem ci_step_none {dg : List (String × List String)} {p t : String}
    {v : List String} (h : p ∉ v) (h2 : p ≠ t) (h3 : alookup dg p = none) :
    cachedImports dg p t v = (false, p :: v) := by
  rw [cachedImports]
  rw [if_neg (by simp [h])]
  rw [if_neg h2]
  split <;> simp_all

theorem ci_step_some {dg : List (String × List String)} {p t : String}
    {v : List String} {deps : List String}
    (h : p ∉ v) (h2 : p ≠ t) (h3 : alookup dg p = some deps) :
    cachedImports dg p t v = cachedImportsDeps dg t deps (p :: v) := by
  rw [cachedImports]
  rw [if_neg (by simp [h])]
  rw [if_neg h2]
  split <;> simp_all

theorem cd_step_nil {dg : List (String × List String)} {t : String} {v : List String} :
    cachedImportsDeps dg t [] v = (false, v) := by
  rw [cachedImportsDeps]

theorem cd_step_hit {dg : List (String × List String)} {t : String} {v rest : List String} :
    cachedImportsDeps dg t (t :: rest) v = (true, v) := by
  rw [cachedImportsDeps]
  simp

theorem cd_step_cons {dg : List (String × List String)} {t dep : String}
    {v rest : List String} (h : dep ≠ t) :
    cachedImportsDeps dg t (dep :: rest) v =
      (let r := cachedImports dg dep t v
       if r.1 then r else cachedImportsDeps dg t rest (r.2 ++ v)) := by
  rw [cachedImportsDeps]
  simp [h]

/-- Joint soundness and visited-closure invariant of the cycle-guarded DFS:
a `true` answer exhibits graph reachability, and a `false` answer leaves a
visited set that contains the root, never contains the target among its
additions, and is closed under forward edges of its additions. -/
theorem cachedImports_spec (dg : List (String × List String)) (p t : String)
    (v : List String) :
    ((cachedImports dg p t v).1 = true → Relation.ReflTransGen (importsEdge dg) p t) ∧
    ((cachedImports dg p t v).1 = false →
       v ⊆ (cachedImports dg p t v).2 ∧ p ∈ (cachedImports dg p t v).2 ∧
       (∀ x ∈ (cachedImports dg p t v).2, x ∉ v →
          x ≠ t ∧ ∀ y, importsEdge dg x y → y ∈ (cachedImports dg p t v).2)) := by
  refine cachedImports.induct dg
    (fun p t v =>
      ((cachedImports dg p t v).1 = true → Relation.ReflTransGen (importsEdge dg) p t) ∧
      ((cachedImports dg p t v).1 = false →
         v ⊆ (cachedImports dg p t v).2 ∧ p ∈ (cachedImports dg p t v).2 ∧
         (∀ x ∈ (cachedImports dg p t v).2, x ∉ v →
            x ≠ t ∧ ∀ y, importsEdge dg x y → y ∈ (cachedImports dg p t v).2)))
    (fun t deps v =>
      ((cachedImportsDeps dg t deps v).1 = true →
         ∃ d ∈ deps, d = t ∨ Relation.ReflTransGen (importsEdge dg) d t) ∧
      ((cachedImportsDeps dg t deps v).1 = false →
         v ⊆ (cachedImportsDeps dg t deps v).2 ∧
         (∀ d ∈ deps, d ∈ (cachedImportsDeps dg t deps v).2 ∧ d ≠ t) ∧
         (∀ x ∈ (cachedImportsDeps dg t deps v).2, x ∉ v →
            x ≠ t ∧ ∀ y, importsEdge dg x y → y ∈ (cachedImportsDeps dg t deps v).2)))
    ?_ ?_ ?_ ?_ ?_ ?_ ?_ ?_ p t v
  · -- already visited
    intro p t v h
    rw [ci_step_visited (by simpa using h)]
    refine ⟨by simp, ?_⟩
    intro _
    refine ⟨fun a ha => ha, ?_, ?_⟩
    · simpa using h
    · intro x hx hnx
      exact absurd hx hnx
  · -- path equals the target
    intro t v h
    rw [ci_step_target (by simpa using h)]
    exact ⟨fun _ => Relation.ReflTransGen.refl, by simp⟩
  · -- no graph entry for the path
    intro p t v h h2 h3
    rw [ci_step_none (by simpa using h) h2 h3]
    refine ⟨by simp, ?_⟩
    intro _
    refine ⟨fun a ha => List.mem_cons_of_mem _ ha, List.mem_cons_self _ _, ?_⟩
    intro x hx hnx
    have hxp : x = p := by
      rcases List.mem_cons.mp hx with h' | h'
      · exact h'
      · exact absurd h' hnx
    subst hxp
    refine ⟨h2, ?_⟩
    intro y hy
    simp [importsEdge, aget0, h3] at hy
  · -- graph entry found, descend into the dependency list
    intro p t v h v1 h2 deps h3 ih
    rw [ci_step_some (by simpa using h) h2 h3]
    constructor
    · intro htrue
      obtain ⟨d, hd, hcase⟩ := ih.1 htrue
      have hedge : importsEdge dg p d := by simp [importsEdge, aget0, h3, hd]
      rcases hcase with rfl | hreach
      · exact Relation.ReflTransGen.single hedge
      · exact Relation.ReflTransGen.head hedge hreach
    · intro hfalse
      obtain ⟨hsub, hdeps, hclosed⟩ := ih.2 hfalse
      refine ⟨fun a ha => hsub (List.mem_cons_of_mem _ ha),
        hsub (List.mem_cons_self _ _), ?_⟩
      intro x hx hnx
      by_cases hxp : x = p
      · subst hxp
        refine ⟨h2, ?_⟩
        intro y hy
        simp [importsEdge, aget0, h3] at hy
        exact (hdeps y hy).1
      · have hx1 : x ∉ (p :: v) := by
          intro hc
          rcases List.mem_cons.mp hc with h' | h'
          · exact hxp h'
          · exact hnx h'
        exact hclosed x hx hx1
  · -- empty dependency list
    intro t v
    rw [cd_step_nil]
    refine ⟨by simp, ?_⟩
    intro _
    exact ⟨fun a ha => ha, by simp, fun x hx hnx => absurd hx hnx⟩
  · -- head of the list is the target
    intro v dep rest
    rw [cd_step_hit]
    exact ⟨fun _ => ⟨dep, List.mem_cons_self _ _, Or.inl rfl⟩, by simp⟩
  · -- recursive call found the target
    intro t v dep rest hne r hr ih1
    have hr2 : (cachedImports dg dep t v).1 = true := hr
    rw [cd_step_cons hne]
    simp only [hr2, if_true, ite_true, if_pos]
    constructor
    · intro _
      exact ⟨dep, List.mem_cons_self _ _, Or.inr (ih1.1 hr2)⟩
    · intro hfalse
      exact Bool.noConfusion hfalse
  · -- recursive call missed, continue through the rest of the list
    intro t v dep rest hne r hr ih1 ih2
    have hr2 : (cachedImports dg dep t v).1 = false := by simpa using hr
    rw [cd_step_cons hne]
    simp only [hr2, Bool.false_eq_true, if_false, ite_false]
    obtain ⟨hsubr, hdepr, hclosedr⟩ := ih1.2 hr2
    constructor
    · intro htrue
      obtain ⟨d, hd, hc⟩ := ih2.1 htrue
      exact ⟨d, List.mem_cons_of_mem _ hd, hc⟩
    · intro hfalse
      obtain ⟨hsub2, hdeps2, hclosed2⟩ := ih2.2 hfalse
      have hsubv : v ⊆ (cachedImportsDeps dg t rest ((cachedImports dg dep t v).2 ++ v)).2 := by
        intro a ha
        exact hsub2 (List.mem_append_right _ ha)
      refine ⟨hsubv, ?_, ?_⟩
      · intro d hd
        rcases List.mem_cons.mp hd with rfl | hd'
        · exact ⟨hsub2 (List.mem_append_left _ hdepr), hne⟩
        · exact hdeps2 d hd'
      · intro x hx hnx
        by_cases hxr : x ∈ (cachedImports dg dep t v).2 ++ v
        · have hxr2 : x ∈ (cachedImports dg dep t v).2 := by
            rcases List.mem_append.mp hxr with h' | h'
            · exact h'
            · exact absurd h' hnx
          obtain ⟨hxt, hsucc⟩ := hclosedr x hxr2 hnx
          refine ⟨hxt, ?_⟩
          intro y hy
          exact hsub2 (List.mem_append_left _ (hsucc y hy))
        · exact hclosed2 x hx hxr

/-- The DFS finds every target that is graph-reachable from the root. -/
theorem cachedImports_complete (dg : List (String × List String)) (p t : String)
    (h : Relation.ReflTransGen (importsEdge dg) p t) :
    (cachedImports dg p t []).1 = true := by
  by_contra hf
  have hfalse : (cachedImports dg p t []).1 = false := by
    cases hb : (cachedImports dg p t []).1
    · rfl
    · exact absurd hb hf
  obtain ⟨_, hp, hclosed⟩ := (cachedImports_spec dg p t []).2 hfalse
  have hmem : ∀ q, Relation.ReflTransGen (importsEdge dg) p q →
      q ∈ (cachedImports dg p t []).2 := by
    intro q hq
    induction hq with
    | refl => exact hp
    | tail _ hbc ih => exact ((hclosed _ ih (by simp)).2) _ hbc
  exact (hclosed t (hmem t h) (by simp)).1 rfl

/-- A `true` answer of the cached query exhibits reachability. -/
theorem cachedMainImportsPackage_sound (g : GoDepFind) (p t : String)
    (h : cachedMainImportsPackage g p t = true) :
    Relation.ReflTransGen (importsEdge g.dependencyGraph) p t :=
  (cachedImports_spec g.dependencyGraph p t []).1 h

/-! ## C7 -/

/-- C7: the transitive-dependency query is a total function (its
well-founded definition above is its termination argument, valid on every
finite graph including cyclic ones), and whenever the cached graph declares
edges A→B and B→C the query from A finds C — for every graph containing
those edges, in particular when an additional edge C→A closes a cycle. -/
theorem C7_transitive_query_cycles (g : GoDepFind) (a b c : String)
    (hab : b ∈ aget0 g.dependencyGraph a) (hbc : c ∈ aget0 g.dependencyGraph b) :
    cachedMainImportsPackage g a c = true := by
  apply cachedImports_complete
  exact Relation.ReflTransGen.head hab (Relation.ReflTransGen.single hbc)

/-! ## String and path lemmas -/

theorem strData_append (a b : String) : (a ++ b).data = a.data ++ b.data := by
  cases a
  cases b
  rfl

theorem isPrefixOf_append_self (l m : List Char) : l.isPrefixOf (l ++ m) = true := by
  induction l with
  | nil => simp [List.isPrefixOf]
  | cons c rest ih => simp [List.isPrefixOf, ih]

theorem trimPfx_jn (a b : String) : trimPfx (jn a b) (a ++ "/") = b := by
  have h1 : (jn a b).data = (a ++ "/").data ++ b.data := strData_append (a ++ "/") b
  unfold trimPfx
  rw [h1, isPrefixOf_append_self, if_pos rfl, List.drop_left]

theorem isAbs_jn (a b : String) (h : isAbs a = true) : isAbs (jn a b) = true := by
  unfold isAbs at h ⊢
  have h1 : (jn a b).data = a.data ++ ("/" ++ b).data := by
    have := strData_append (a ++ "/") b
    have h2 := strData_append a "/"
    have h3 := strData_append "/" b
    show ((a ++ "/") ++ b).data = _
    rw [this, h2, h3, List.append_assoc]
  rw [h1]
  cases hd : a.data with
  | nil => rw [hd] at h; simp at h
  | cons c l =>
    rw [hd] at h
    simpa using h

/-! ## C9 -/

/-- C9: when the exact-path lookup and the relative-path fallback both
miss, `findPackageForFile` answers with the first recorded candidate of the
by-name index (`fileToPackages[baseName][0]`) when that list is non-empty,
and with the empty identity otherwise — stated through `headD ""`,
which is exactly that case split. -/
theorem C9_by_name_first_candidate (env : Env) (g : GoDepFind) (f : String)
    (hpop : g.cachedModule = true)
    (hexact : alookup g.filePathToPackage f = none)
    (hrel : (relPath env.cwd f).bind (fun rp => alookup g.filePathToPackage rp) = none) :
    findPackageForFile env g f =
      (.ok ((aget0 g.fileToPackages (baseName f)).headD ""), g) := by
  simp only [findPackageForFile, ensureCacheInitialized, hpop, if_true, hexact, hrel]

theorem C9_by_name_first_candidate_witness :
    (scnG.cachedModule = true ∧
     alookup scnG.filePathToPackage "/q/x.go" = none ∧
     (relPath scnEnv.cwd "/q/x.go").bind
       (fun rp => alookup scnG.filePathToPackage rp) = none) ∧
    findPackageForFile scnEnv scnG "/q/x.go" =
      (.ok ((aget0 scnG.fileToPackages (baseName "/q/x.go")).headD ""), scnG) :=
  ⟨⟨rfl, by decide, by decide⟩,
   C9_by_name_first_candidate scnEnv scnG "/q/x.go" rfl (by decide) (by decide)⟩

/-- A successful catalog interaction makes `rebuildCache` succeed with the
state rebuilt from the fresh snapshot, whatever the previous cache held. -/
theorem rebuildCache_eq (env : Env) (g : GoDepFind) (paths : List String)
    (pkgs : List (String × Pkg))
    (hlp : env.listPkgs = some paths) (hgp : getPackages env paths = .ok pkgs) :
    rebuildCache env g =
      (.ok (),
       { g with
          packageCache := pkgs
          dependencyGraph := (buildGraphs g.testImports pkgs).1
          reverseDeps := (buildGraphs g.testImports pkgs).2
          filePathToPackage := (buildFileIndex g.testImports pkgs).1
          fileToPackages := (buildFileIndex g.testImports pkgs).2
          mainPackages := (pkgs.filter (fun pp => pp.2.name = "main")).map Prod.fst
          cachedModule := true }) := by
  simp [rebuildCache, hlp, hgp]

/-! ## C2 -/

/-- C2: whenever the changed file's path relative to the root textually
equals the handler's entry-point path (stated as `f = jn g.rootDir handler`
for clean paths), `ThisFileIsMine` with a `write` event answers
`(true, nil)` for every cache state `g` — any graph contents, populated or
cold — provided the pipeline stages before the self-identity match pass
(handler exists on disk, the file validates) and the catalog provider can
serve the rebuild the self-write triggers. -/
theorem C2_self_identity_unconditional (env : Env) (g : GoDepFind)
    (handler f : String) (paths : List String) (pkgs : List (String × Pkg))
    (hf : f ≠ "") (hh : handler ≠ "")
    (habs : isAbs f = true)
    (hroot : isAbs g.rootDir = true)
    (hhrel : isAbs handler = false)
    (hfeq : f = jn g.rootDir handler)
    (hex : env.fileExists (jn g.rootDir handler) = true)
    (hval : extName f = ".go" → IsValidGoFile env f = .ok true)
    (hlp : env.listPkgs = some paths)
    (hgp : getPackages env paths = .ok pkgs) :
    ∃ g', ThisFileIsMine env g handler f "write" = (.ok true, g') := by
  have hreb : ∀ g0 : GoDepFind, ∃ g1,
      rebuildCache env g0 = (.ok (), g1) ∧ g1.rootDir = g0.rootDir := by
    intro g0
    exact ⟨_, rebuildCache_eq env g0 paths pkgs hlp hgp, rfl⟩
  have hens : ∀ g0 : GoDepFind, ∃ g1,
      ensureCacheInitialized env g0 = (.ok (), g1) ∧ g1.rootDir = g0.rootDir := by
    intro g0
    by_cases hc : g0.cachedModule
    · exact ⟨g0, by simp [ensureCacheInitialized, hc], rfl⟩
    · obtain ⟨g1, he, hr⟩ := hreb g0
      exact ⟨g1, by simp [ensureCacheInitialized, hc, he], hr⟩
  have hj : isAbs (jn g.rootDir handler) = true := isAbs_jn _ _ hroot
  have hsame : ∀ g1 : GoDepFind, g1.rootDir = g.rootDir →
      isSameFile env g1 f handler = true := by
    intro g1 hg1
    simp only [isSameFile, absIn, habs, hhrel, hg1, if_true, if_false,
      Bool.false_eq_true, ite_true, ite_false, hj]
    rw [hfeq]
    simp
  have hupd : ∃ g2,
      updateCacheForFileWithContext env g f "write" handler = (.ok (), g2) := by
    obtain ⟨g1, he, hr1⟩ := hens g
    obtain ⟨g2, he2, _⟩ := hreb g1
    refine ⟨g2, ?_⟩
    simp only [updateCacheForFileWithContext, he]
    rw [if_pos trivial]
    rw [if_pos ⟨hh, hsame g1 hr1⟩]
    simpa [rescanMainPackageDependencies] using he2
  obtain ⟨g2, hu⟩ := hupd
  refine ⟨g2, ?_⟩
  have hrel : trimPfx f (g.rootDir ++ "/") = handler := by
    rw [hfeq]
    exact trimPfx_jn _ _
  simp only [ThisFileIsMine, if_neg hf, if_neg hh, habs, if_true, ite_true,
    absIn, hhrel, if_false, ite_false, Bool.false_eq_true]
  rw [if_neg (by simp [hex])]
  have hvcase : (if extName f = ".go" then IsValidGoFile env f else .ok true) =
      (.ok true : Except String Bool) := by
    by_cases hgo : extName f = ".go"
    · simpa [hgo] using hval hgo
    · simp [hgo]
  rw [hvcase]
  rw [hrel, if_pos rfl, hu]

theorem C2_self_identity_unconditional_witness :
    ((New "/r").cachedModule = false ∧
     "/r/pwa/main.server.go" = jn (New "/r").rootDir "pwa/main.server.go" ∧
     scnEnv.fileExists (jn (New "/r").rootDir "pwa/main.server.go") = true) ∧
    (∃ g', ThisFileIsMine scnEnv (New "/r") "pwa/main.server.go"
        "/r/pwa/main.server.go" "write" = (.ok true, g')) :=
  ⟨⟨rfl, by decide, by decide⟩,
   C2_self_identity_unconditional scnEnv (New "/r") "pwa/main.server.go"
     "/r/pwa/main.server.go" ["m/pwa", "m/x", "m/y"]
     [("m/pwa", pwaPkg), ("m/x", xPkg), ("m/y", yPkg)]
     (by decide) (by decide) (by decide) (by decide) (by decide) (by decide)
     (by decide) (fun _ => rfl) rfl rfl⟩

/-! ## C10 -/

/-- C10: for any event string outside write/create/remove/rename, the
contextual cache update coincides with lazy population alone (so a
populated cache is left untouched and no error is produced), and
`ThisFileIsMine` — whose non-entry-point path never consults the event at
all — accepts the unrecognized event on the self-identity path, answering
owned without error and without changing the populated cache. -/
theorem C10_unknown_event_noop (env : Env) (g : GoDepFind) (handler f ev : String)
    (hev1 : ev ≠ "write") (hev2 : ev ≠ "create")
    (hev3 : ev ≠ "remove") (hev4 : ev ≠ "rename")
    (hpop : g.cachedModule = true)
    (hf : f ≠ "") (hh : handler ≠ "")
    (habs : isAbs f = true)
    (hhrel : isAbs handler = false)
    (hfeq : f = jn g.rootDir handler)
    (hex : env.fileExists (jn g.rootDir handler) = true)
    (hval : extName f = ".go" → IsValidGoFile env f = .ok true) :
    (∀ (g2 : GoDepFind) (f2 h2 : String),
       updateCacheForFileWithContext env g2 f2 ev h2 = ensureCacheInitialized env g2) ∧
    ThisFileIsMine env g handler f ev = (.ok true, g) := by
  have hupdAll : ∀ (g2 : GoDepFind) (f2 h2 : String),
      updateCacheForFileWithContext env g2 f2 ev h2 = ensureCacheInitialized env g2 := by
    intro g2 f2 h2
    rcases he : ensureCacheInitialized env g2 with ⟨r, g1⟩
    cases r with
    | error e => simp [updateCacheForFileWithContext, he]
    | ok u =>
      cases u
      simp [updateCacheForFileWithContext, he, hev1, hev2, hev3, hev4]
  refine ⟨hupdAll, ?_⟩
  have hens : ensureCacheInitialized env g = (.ok (), g) := by
    simp [ensureCacheInitialized, hpop]
  have hupd : updateCacheForFileWithContext env g f ev handler = (.ok (), g) := by
    rw [hupdAll, hens]
  have hrel : trimPfx f (g.rootDir ++ "/") = handler := by
    rw [hfeq]
    exact trimPfx_jn _ _
  simp only [ThisFileIsMine, if_neg hf, if_neg hh, habs, if_true, ite_true,
    absIn, hhrel, if_false, ite_false, Bool.false_eq_true]
  rw [if_neg (by simp [hex])]
  have hvcase : (if extName f = ".go" then IsValidGoFile env f else .ok true) =
      (.ok true : Except String Bool) := by
    by_cases hgo : extName f = ".go"
    · simpa [hgo] using hval hgo
    · simp [hgo]
  rw [hvcase]
  rw [hrel, if_pos rfl, hupd]

theorem C10_unknown_event_noop_witness :
    updateCacheForFileWithContext scnEnv scnG "/r/x/x.go" "check" "pwa/main.server.go" =
      ensureCacheInitialized scnEnv scnG ∧
    ThisFileIsMine scnEnv scnG "pwa/main.server.go" "/r/pwa/main.server.go" "check" =
      (.ok true, scnG) :=
  ⟨(C10_unknown_event_noop scnEnv scnG "pwa/main.server.go" "/r/pwa/main.server.go"
      "check" (by decide) (by decide) (by decide) (by decide) rfl (by decide) (by decide)
      (by decide) (by decide) (by decide) (by decide)
      (fun _ => rfl)).1 scnG "/r/x/x.go" "pwa/main.server.go",
   (C10_unknown_event_noop scnEnv scnG "pwa/main.server.go" "/r/pwa/main.server.go"
      "check" (by decide) (by decide) (by decide) (by decide) rfl (by decide) (by decide)
      (by decide) (by decide) (by decide) (by decide)
      (fun _ => rfl)).2⟩

/-! ## C8 -/

/-- C8: soft misses are negative results, never errors.  First conjunct: a
`.go` file the validator rejects (empty, invalid, mid-write — a `(false,
nil)` verdict) makes `ThisFileIsMine` answer `(false, nil)` before any
cache interaction.  Second conjunct: a file that passes validation but
resolves to no unit — exact-path miss, relative-path miss, empty by-name
candidate list — also answers `(false, nil)`. -/
theorem C8_soft_misses_no_error :
    (∀ (env : Env) (g : GoDepFind) (handler f ev : String),
       f ≠ "" → handler ≠ "" → isAbs f = true →
       env.fileExists (if isAbs handler then handler else jn g.rootDir handler) = true →
       extName f = ".go" → IsValidGoFile env f = .ok false →
       ThisFileIsMine env g handler f ev = (.ok false, g)) ∧
    (∀ (env : Env) (g : GoDepFind) (handler f ev : String),
       f ≠ "" → handler ≠ "" → isAbs f = true →
       env.fileExists (if isAbs handler then handler else jn g.rootDir handler) = true →
       (if extName f = ".go" then IsValidGoFile env f else .ok true) =
         (.ok true : Except String Bool) →
       g.cachedModule = true →
       trimPfx f (g.rootDir ++ "/") ≠ handler →
       alookup g.filePathToPackage f = none →
       (relPath env.cwd f).bind (fun rp => alookup g.filePathToPackage rp) = none →
       aget0 g.fileToPackages (baseName f) = [] →
       ThisFileIsMine env g handler f ev = (.ok false, g)) := by
  constructor
  · intro env g handler f ev hf hh habs hex hgo hbad
    simp only [ThisFileIsMine, if_neg hf, if_neg hh, habs, if_true, ite_true, absIn]
    rw [if_neg (by simp [hex])]
    rw [if_pos hgo, hbad]
  · intro env g handler f ev hf hh habs hex hval hpop hrelne hexact hrp hname
    simp only [ThisFileIsMine, if_neg hf, if_neg hh, habs, if_true, ite_true, absIn]
    rw [if_neg (by simp [hex])]
    rw [hval]
    rw [if_neg hrelne]
    simp only [checkPackageBasedOwnership, findPackageForFile, ensureCacheInitialized,
      hpop, if_true, ite_true, hexact, hrp, hname]
    rfl

theorem C8_soft_misses_no_error_witness :
    (IsValidGoFile scnEnv "/r/x/empty.go" = .ok false ∧
     aget0 scnG.fileToPackages (baseName "/q/nomatch.go") = []) ∧
    ThisFileIsMine scnEnv scnG "pwa/main.server.go" "/r/x/empty.go" "write" =
      (.ok false, scnG) ∧
    ThisFileIsMine scnEnv scnG "pwa/main.server.go" "/q/nomatch.go" "write" =
      (.ok false, scnG) :=
  ⟨⟨rfl, rfl⟩,
   C8_soft_misses_no_error.1 scnEnv scnG "pwa/main.server.go" "/r/x/empty.go" "write"
     (by decide) (by decide) (by decide) (by decide) (by decide) rfl,
   C8_soft_misses_no_error.2 scnEnv scnG "pwa/main.server.go" "/q/nomatch.go" "write"
     (by decide) (by decide) (by decide) (by decide) rfl rfl (by decide) (by decide)
     rfl rfl⟩

/-! ## C1 -/

/-- A populated cache, a resolvable non-main target whose unit the
handler's own file neither imports directly nor reaches through the cached
graph: `ThisFileIsMine` denies ownership. -/
theorem thisFileIsMine_not_owned (env : Env) (g : GoDepFind)
    (handler f pkgT : String) (imps : List String) (ev : String)
    (hh : handler ≠ "") (hf : f ≠ "")
    (habs : isAbs f = true) (hhrel : isAbs handler = false)
    (hex : env.fileExists (jn g.rootDir handler) = true)
    (hval : (if extName f = ".go" then IsValidGoFile env f else .ok true) =
      (.ok true : Except String Bool))
    (hrelne : trimPfx f (g.rootDir ++ "/") ≠ handler)
    (hpop : g.cachedModule = true)
    (hlk : alookup g.filePathToPackage f = some pkgT)
    (hne : pkgT ≠ "")
    (hnm : isMainPackage g pkgT = false)
    (hrd : parseFileImports env (jn g.rootDir handler) = .ok imps)
    (hdirect : pkgT ∉ imps)
    (htrans : ∀ i ∈ imps,
      ¬ Relation.ReflTransGen (importsEdge g.dependencyGraph) i pkgT) :
    ThisFileIsMine env g handler f ev = (.ok false, g) := by
  have hany : (imps.any fun imp => cachedMainImportsPackage g imp pkgT) = false := by
    rw [List.any_eq_false]
    intro imp hi
    cases hb : cachedMainImportsPackage g imp pkgT
    · simp
    · exact absurd (cachedMainImportsPackage_sound g imp pkgT hb) (htrans imp hi)
  have hHFIP : handlerFileImportsPackage env g handler pkgT = (false, g) := by
    simp only [handlerFileImportsPackage, ensureCacheInitialized, hpop, if_true, ite_true,
      hhrel, if_false, ite_false, Bool.false_eq_true, hrd]
    rw [if_neg (by simpa using hdirect)]
    rw [hany]
  have hDoes : doesPackageBelongToHandler env g pkgT handler = (false, g) := by
    simp only [doesPackageBelongToHandler, hnm, Bool.false_eq_true, if_false, ite_false]
    exact hHFIP
  simp only [ThisFileIsMine, if_neg hf, if_neg hh, habs, if_true, ite_true, absIn,
    hhrel, if_false, ite_false, Bool.false_eq_true]
  rw [if_neg (by simp [hex])]
  rw [hval]
  rw [if_neg hrelne]
  simp only [checkPackageBasedOwnership, findPackageForFile, ensureCacheInitialized,
    hpop, if_true, ite_true, hlk]
  rw [if_neg hne, hDoes]

/-- C1: two entry-point files in the same directory whose parsed imports
pull in disjoint dependency subtrees (`X` reachable from M1's imports, `Y`
from M2's) each deny ownership of the other's subtree: the resolver grants
a non-entry-point file only through the handler's specific entry-point
file's own parsed imports, direct or transitive over the cached graph. -/
theorem C1_disjoint_subtrees_ownership (env : Env) (g : GoDepFind)
    (m1 m2 fY fX pkgY pkgX : String) (imps1 imps2 : List String)
    (X Y : Set String) (ev : String)
    (hm1 : m1 ≠ "") (hm2 : m2 ≠ "")
    (hm1rel : isAbs m1 = false) (hm2rel : isAbs m2 = false)
    (hex1 : env.fileExists (jn g.rootDir m1) = true)
    (hex2 : env.fileExists (jn g.rootDir m2) = true)
    (hfY : fY ≠ "") (hfX : fX ≠ "")
    (hfYabs : isAbs fY = true) (hfXabs : isAbs fX = true)
    (hvY : (if extName fY = ".go" then IsValidGoFile env fY else .ok true) =
      (.ok true : Except String Bool))
    (hvX : (if extName fX = ".go" then IsValidGoFile env fX else .ok true) =
      (.ok true : Except String Bool))
    (hrelY : trimPfx fY (g.rootDir ++ "/") ≠ m1)
    (hrelX : trimPfx fX (g.rootDir ++ "/") ≠ m2)
    (hpop : g.cachedModule = true)
    (hlkY : alookup g.filePathToPackage fY = some pkgY)
    (hlkX : alookup g.filePathToPackage fX = some pkgX)
    (hneY : pkgY ≠ "") (hneX : pkgX ≠ "")
    (hnmY : isMainPackage g pkgY = false)
    (hnmX : isMainPackage g pkgX = false)
    (hrd1 : parseFileImports env (jn g.rootDir m1) = .ok imps1)
    (hrd2 : parseFileImports env (jn g.rootDir m2) = .ok imps2)
    (hX : ∀ q, q ∈ X ↔
      ∃ i ∈ imps1, Relation.ReflTransGen (importsEdge g.dependencyGraph) i q)
    (hY : ∀ q, q ∈ Y ↔
      ∃ i ∈ imps2, Relation.ReflTransGen (importsEdge g.dependencyGraph) i q)
    (hdisj : ∀ q, q ∈ X → q ∈ Y → False)
    (hYmem : pkgY ∈ Y) (hXmem : pkgX ∈ X) :
    ThisFileIsMine env g m1 fY ev = (.ok false, g) ∧
    ThisFileIsMine env g m2 fX ev = (.ok false, g) := by
  constructor
  · refine thisFileIsMine_not_owned env g m1 fY pkgY imps1 ev hm1 hfY hfYabs hm1rel
      hex1 hvY hrelY hpop hlkY hneY hnmY hrd1 ?_ ?_
    · intro hmem
      exact hdisj pkgY ((hX pkgY).mpr ⟨pkgY, hmem, Relation.ReflTransGen.refl⟩) hYmem
    · intro i hi hr
      exact hdisj pkgY ((hX pkgY).mpr ⟨i, hi, hr⟩) hYmem
  · refine thisFileIsMine_not_owned env g m2 fX pkgX imps2 ev hm2 hfX hfXabs hm2rel
      hex2 hvX hrelX hpop hlkX hneX hnmX hrd2 ?_ ?_
    · intro hmem
      exact hdisj pkgX hXmem ((hY pkgX).mpr ⟨pkgX, hmem, Relation.ReflTransGen.refl⟩)
    · intro i hi hr
      exact hdisj pkgX hXmem ((hY pkgX).mpr ⟨i, hi, hr⟩)

theorem C1_disjoint_subtrees_ownership_witness :
    (parseFileImports scnEnv (jn scnG.rootDir "pwa/main.server.go") = .ok ["m/x"] ∧
     parseFileImports scnEnv (jn scnG.rootDir "pwa/main.wasm.go") = .ok ["m/y"]) ∧
    ThisFileIsMine scnEnv scnG "pwa/main.server.go" "/r/y/y.go" "write" =
      (.ok false, scnG) ∧
    ThisFileIsMine scnEnv scnG "pwa/main.wasm.go" "/r/x/x.go" "write" =
      (.ok false, scnG) := by
  have hnosucc : ∀ r b : String, r = "m/x" ∨ r = "m/y" →
      ¬ importsEdge scnG.dependencyGraph r b := by
    intro r b hcase hb
    rcases hcase with rfl | rfl
    · have hz : aget0 scnG.dependencyGraph "m/x" = [] := rfl
      rw [importsEdge, hz] at hb
      simp at hb
    · have hz : aget0 scnG.dependencyGraph "m/y" = [] := rfl
      rw [importsEdge, hz] at hb
      simp at hb
  have hreach : ∀ r q : String, r = "m/x" ∨ r = "m/y" →
      Relation.ReflTransGen (importsEdge scnG.dependencyGraph) r q → q = r := by
    intro r q hcase hr
    rcases Relation.ReflTransGen.cases_head hr with h | ⟨b, hb, _⟩
    · exact h.symm
    · exact absurd hb (hnosucc r b hcase)
  have hXw : ∀ q, q ∈ ({"m/x"} : Set String) ↔
      ∃ i ∈ ["m/x"], Relation.ReflTransGen (importsEdge scnG.dependencyGraph) i q := by
    intro q
    constructor
    · intro hq
      have hq2 : q = "m/x" := by simpa using hq
      subst hq2
      exact ⟨"m/x", by simp, Relation.ReflTransGen.refl⟩
    · rintro ⟨i, hi, hr⟩
      have hi2 : i = "m/x" := by simpa using hi
      subst hi2
      have := hreach "m/x" q (Or.inl rfl) hr
      simp [this]
  have hYw : ∀ q, q ∈ ({"m/y"} : Set String) ↔
      ∃ i ∈ ["m/y"], Relation.ReflTransGen (importsEdge scnG.dependencyGraph) i q := by
    intro q
    constructor
    · intro hq
      have hq2 : q = "m/y" := by simpa using hq
      subst hq2
      exact ⟨"m/y", by simp, Relation.ReflTransGen.refl⟩
    · rintro ⟨i, hi, hr⟩
      have hi2 : i = "m/y" := by simpa using hi
      subst hi2
      have := hreach "m/y" q (Or.inr rfl) hr
      simp [this]
  have hmain := C1_disjoint_subtrees_ownership scnEnv scnG
    "pwa/main.server.go" "pwa/main.wasm.go" "/r/y/y.go" "/r/x/x.go" "m/y" "m/x"
    ["m/x"] ["m/y"] ({"m/x"} : Set String) ({"m/y"} : Set String) "write"
    (by decide) (by decide) (by decide) (by decide) (by decide) (by decide)
    (by decide) (by decide) (by decide) (by decide) rfl rfl
    (by decide) (by decide) rfl (by decide) (by decide) (by decide) (by decide)
    (by decide) (by decide) rfl rfl hXw hYw
    (by
      intro q hq hq2
      have h1 : q = "m/x" := by simpa using hq
      subst h1
      simp at hq2)
    (by simp) (by simp)
  exact ⟨⟨rfl, rfl⟩, hmain.1, hmain.2⟩

/-! ## Association-list lemmas -/

theorem alookup_ainsert {α : Type} (m : List (String × α)) (k : String) (v : α)
    (k' : String) :
    alookup (ainsert m k v) k' = if k' = k then some v else alookup m k' := by
  induction m with
  | nil => simp [ainsert, alookup]
  | cons hd tl ih =>
    rcases hd with ⟨k0, v0⟩
    by_cases h0 : k0 = k
    · subst h0
      by_cases h1 : k' = k0 <;> simp [ainsert, alookup, h1]
    · by_cases h1 : k' = k0
      · subst h1
        simp [ainsert, alookup, h0, Ne.symm h0]
      · simp [ainsert, alookup, h0, h1, ih]

theorem aget0_ainsert (m : List (String × List String)) (k : String)
    (v : List String) (k' : String) :
    aget0 (ainsert m k v) k' = if k' = k then v else aget0 m k' := by
  unfold aget0
  rw [alookup_ainsert]
  by_cases h : k' = k <;> simp [h]

theorem mem_keys_ainsert {α : Type} (m : List (String × α)) (k : String) (v : α)
    (x : String) :
    x ∈ (ainsert m k v).map Prod.fst ↔ x ∈ m.map Prod.fst ∨ x = k := by
  induction m with
  | nil => simp [ainsert]
  | cons hd tl ih =>
    rcases hd with ⟨k0, v0⟩
    by_cases h0 : k0 = k
    · subst h0
      simp [ainsert]
      tauto
    · simp [ainsert, h0, ih]
      tauto

theorem nodup_keys_ainsert {α : Type} (m : List (String × α)) (k : String) (v : α)
    (h : (m.map Prod.fst).Nodup) : ((ainsert m k v).map Prod.fst).Nodup := by
  induction m with
  | nil => simp [ainsert]
  | cons hd tl ih =>
    rcases hd with ⟨k0, v0⟩
    by_cases h0 : k0 = k
    · subst h0
      simpa [ainsert] using h
    · simp only [List.map_cons, List.nodup_cons] at h
      simp only [ainsert, h0, if_false, ite_false, List.map_cons, List.nodup_cons]
      refine ⟨?_, ih h.2⟩
      rw [mem_keys_ainsert]
      rintro (hc | hc)
      · exact h.1 hc
      · exact h0 hc

theorem getPackagesAux_nodup (env : Env) (paths : List String) :
    ∀ (acc : List (String × Pkg)), (acc.map Prod.fst).Nodup →
      ∀ pkgs, getPackagesAux env paths acc = .ok pkgs → (pkgs.map Prod.fst).Nodup := by
  induction paths with
  | nil =>
    intro acc hacc pkgs h
    simp only [getPackagesAux] at h
    cases h
    exact hacc
  | cons p rest ih =>
    intro acc hacc pkgs h
    simp only [getPackagesAux] at h
    cases hi : env.importPkg p with
    | none => rw [hi] at h; cases h
    | some pkg =>
      rw [hi] at h
      exact ih (ainsert acc p pkg) (nodup_keys_ainsert acc p pkg hacc) pkgs h

theorem getPackages_nodup (env : Env) (paths : List String)
    (pkgs : List (String × Pkg)) (h : getPackages env paths = .ok pkgs) :
    (pkgs.map Prod.fst).Nodup :=
  getPackagesAux_nodup env paths [] (by simp) pkgs h

/-! ## Transpose of the freshly rebuilt graph -/

theorem mem_aget0_addRevEdge (rd : List (String × List String)) (imp x P Q : String) :
    P ∈ aget0 (addRevEdge rd imp x) Q ↔ P ∈ aget0 rd Q ∨ (P = x ∧ Q = imp) := by
  unfold addRevEdge
  rw [aget0_ainsert]
  by_cases h : Q = imp
  · subst h
    simp [List.mem_append]
  · simp [h]

theorem mem_aget0_addRevFold (imps : List String) (x : String)
    (rd : List (String × List String)) (P Q : String) :
    P ∈ aget0 (imps.foldl (fun rd imp => addRevEdge rd imp x) rd) Q ↔
      P ∈ aget0 rd Q ∨ (P = x ∧ Q ∈ imps) := by
  induction imps generalizing rd with
  | nil => simp
  | cons i rest ih =>
    simp only [List.foldl_cons]
    rw [ih, mem_aget0_addRevEdge]
    simp only [List.mem_cons]
    tauto

theorem buildGraphsAux_transpose (pkgs : List (String × Pkg))
    (dg rd : List (String × List String))
    (hinv : ∀ P Q, P ∈ aget0 rd Q ↔ Q ∈ aget0 dg P)
    (hfresh : ∀ pp ∈ pkgs, alookup dg pp.1 = none)
    (hnd : (pkgs.map Prod.fst).Nodup) :
    ∀ P Q, P ∈ aget0 (buildGraphsAux false pkgs (dg, rd)).2 Q ↔
           Q ∈ aget0 (buildGraphsAux false pkgs (dg, rd)).1 P := by
  induction pkgs generalizing dg rd with
  | nil => simpa [buildGraphsAux] using hinv
  | cons pp rest ih =>
    rcases pp with ⟨p, pkg⟩
    simp only [List.map_cons, List.nodup_cons] at hnd
    simp only [buildGraphsAux]
    have hrev : revImports false pkg = pkg.imports := by simp [revImports]
    rw [hrev]
    apply ih
    · intro P Q
      rw [mem_aget0_addRevFold, aget0_ainsert]
      by_cases hP : P = p
      · subst hP
        have hz : aget0 dg P = [] := by
          unfold aget0
          rw [hfresh ⟨P, pkg⟩ (List.mem_cons_self _ _)]
          rfl
        rw [if_pos rfl]
        rw [hinv P Q, hz]
        simp
      · rw [if_neg hP]
        rw [hinv P Q]
        simp [hP]
    · intro qq hqq
      rw [alookup_ainsert]
      rw [if_neg ?_]
      · exact hfresh qq (List.mem_cons_of_mem _ hqq)
      · intro hc
        apply hnd.1
        rw [← hc]
        exact List.mem_map_of_mem Prod.fst hqq
    · exact hnd.2

theorem buildGraphs_transpose (pkgs : List (String × Pkg))
    (hnd : (pkgs.map Prod.fst).Nodup) (P Q : String) :
    P ∈ aget0 (buildGraphs false pkgs).2 Q ↔ Q ∈ aget0 (buildGraphs false pkgs).1 P :=
  buildGraphsAux_transpose pkgs [] []
    (by intro P Q; simp [aget0, alookup])
    (by intro pp _; simp [alookup]) hnd P Q

/-! ## C3 -/

/-- Counterexample to C3 as stated: population succeeds and the remove
event is applied without error, yet afterwards `m/a` still appears in
`reverseDeps["m/b"]` while `m/b` is no longer in `dependencyGraph["m/a"]`
(that entry was deleted wholesale) — the reverse index is not the
transpose of the forward graph after event application. -/
theorem C3_transpose_counterexample :
    (rebuildCache remEnv (New "/r")).1 = .ok () ∧
    (updateCacheForFileWithContext remEnv remG0 "/r/a/a.go" "remove" "x/main.go").1 =
      .ok () ∧
    "m/a" ∈ aget0 remG1.reverseDeps "m/b" ∧
    "m/b" ∉ aget0 remG1.dependencyGraph "m/a" :=
  ⟨rfl, rfl, by decide, by decide⟩

/-- C3 (amended): right after cache population — `rebuildCache`
succeeding, with test imports disabled — the reverse-dependency index is
exactly the transpose of the forward dependency graph.  (Event application
does not preserve this: see the counterexample, where a remove leaves the
removed package in the reverse lists of its former imports; and with test
imports enabled the rebuild itself records test edges only in the reverse
index.) -/
theorem C3_transpose_after_population (env : Env) (g : GoDepFind)
    (hti : g.testImports = false)
    (hok : (rebuildCache env g).1 = .ok ()) :
    ∀ P Q, P ∈ aget0 (rebuildCache env g).2.reverseDeps Q ↔
           Q ∈ aget0 (rebuildCache env g).2.dependencyGraph P := by
  cases hlp : env.listPkgs with
  | none => rw [rebuildCache, hlp] at hok; cases hok
  | some paths =>
    cases hgp : getPackages env paths with
    | error e =>
      rw [rebuildCache, hlp] at hok
      simp only [hgp] at hok
      cases hok
    | ok pkgs =>
      have heq := rebuildCache_eq env g paths pkgs hlp hgp
      rw [heq]
      intro P Q
      simp only []
      rw [hti]
      exact buildGraphs_transpose pkgs (getPackages_nodup env paths pkgs hgp) P Q

theorem C3_transpose_after_population_witness :
    ((New "/r").testImports = false ∧ (rebuildCache remEnv (New "/r")).1 = .ok ()) ∧
    ("m/a" ∈ aget0 (rebuildCache remEnv (New "/r")).2.reverseDeps "m/b" ↔
     "m/b" ∈ aget0 (rebuildCache remEnv (New "/r")).2.dependencyGraph "m/a") :=
  ⟨⟨rfl, rfl⟩, C3_transpose_after_population remEnv (New "/r") rfl rfl "m/a" "m/b"⟩

/-! ## C4 -/

/-- C4 evaluated at its failing input: after removing unit `m/b`'s file the
code has dropped `m/b`'s package-cache entry and forward edge list, yet
`m/b` still appears as a dependent in `reverseDeps["m/c"]`, and the
transitive query from `m/a` to target `m/b` still answers `true`, because
`m/a`'s own forward edge list still names `m/b`.  The claim (and §8 of the
spec) requires both to be gone. -/
theorem C4_remove_leaves_stale_edges :
    (rebuildCache remEnv (New "/r")).1 = .ok () ∧
    (updateCacheForFileWithContext remEnv remG0 "/r/b/b.go" "remove" "x/main.go").1 =
      .ok () ∧
    alookup c4G1.packageCache "m/b" = none ∧
    alookup c4G1.dependencyGraph "m/b" = none ∧
    "m/b" ∈ aget0 c4G1.reverseDeps "m/c" ∧
    cachedMainImportsPackage c4G1 "m/a" "m/b" = true := by
  refine ⟨rfl, rfl, by decide, by decide, by decide, ?_⟩
  have hdg : c4G1.dependencyGraph = [("m/a", ["m/b"]), ("m/c", [])] := by decide
  rw [cachedMainImportsPackage, hdg]
  simp [cachedImports, cachedImportsDeps, alookup]

theorem C7_transitive_query_cycles_witness :
    ("m/b" ∈ aget0 cycleG.dependencyGraph "m/a" ∧
     "m/c" ∈ aget0 cycleG.dependencyGraph "m/b" ∧
     "m/a" ∈ aget0 cycleG.dependencyGraph "m/c") ∧
    cachedMainImportsPackage cycleG "m/a" "m/c" = true :=
  ⟨by decide,
   C7_transitive_query_cycles cycleG "m/a" "m/b" "m/c" (by decide) (by decide)⟩

/-! ## C5 -/

/-- C5: a write event on the handler's own entry-point file triggers a
full cache rebuild — the update equals `rebuildCache`, and on a successful
catalog interaction every one of the six cache structures is reconstructed
from the fresh snapshot alone, the previous contents never consulted.
Consequently dependency edits to the entry point take effect: in the
concrete before/after scenario, ownership of the newly imported library's
file is false before the edit-write and true afterwards. -/
theorem C5_entry_point_write_full_rebuild :
    (∀ (env : Env) (g : GoDepFind) (f h : String),
       g.cachedModule = true → h ≠ "" → isSameFile env g f h = true →
       updateCacheForFileWithContext env g f "write" h = rebuildCache env g) ∧
    (∀ (env : Env) (g : GoDepFind) (f h : String) (paths : List String)
       (pkgs : List (String × Pkg)),
       g.cachedModule = true → h ≠ "" → isSameFile env g f h = true →
       env.listPkgs = some paths → getPackages env paths = .ok pkgs →
       updateCacheForFileWithContext env g f "write" h =
         (.ok (),
          { g with
             packageCache := pkgs
             dependencyGraph := (buildGraphs g.testImports pkgs).1
             reverseDeps := (buildGraphs g.testImports pkgs).2
             filePathToPackage := (buildFileIndex g.testImports pkgs).1
             fileToPackages := (buildFileIndex g.testImports pkgs).2
             mainPackages := (pkgs.filter (fun pp => pp.2.name = "main")).map Prod.fst
             cachedModule := true })) ∧
    ThisFileIsMine dynEnv0 dynG0 "app/main.go" "/r/db/db.go" "write" =
      (.ok false, dynG0) ∧
    ThisFileIsMine dynEnv1 dynG0 "app/main.go" "/r/app/main.go" "write" =
      (.ok true, dynG1) ∧
    ThisFileIsMine dynEnv1 dynG1 "app/main.go" "/r/db/db.go" "write" =
      (.ok true, dynG1) := by
  have h1 : ∀ (env : Env) (g : GoDepFind) (f h : String),
      g.cachedModule = true → h ≠ "" → isSameFile env g f h = true →
      updateCacheForFileWithContext env g f "write" h = rebuildCache env g := by
    intro env g f h hpop hh hsame
    simp only [updateCacheForFileWithContext, ensureCacheInitialized, hpop, if_true, ite_true]
    rw [if_pos ⟨hh, hsame⟩]
    rfl
  refine ⟨h1, ?_, ?_, ?_, ?_⟩
  · intro env g f h paths pkgs hpop hh hsame hlp hgp
    rw [h1 env g f h hpop hh hsame]
    exact rebuildCache_eq env g paths pkgs hlp hgp
  · rfl
  · rfl
  · rfl

/-! ## Pointwise behaviour of the diff-based reverse-index update -/

theorem removeString_not_mem (l : List String) (x : String) (h : x ∉ l) :
    removeString l x = l := by
  induction l with
  | nil => rfl
  | cons a rest ih =>
    simp only [removeString]
    have hax : a ≠ x := by
      intro hc
      exact h (by rw [← hc]; exact List.mem_cons_self _ _)
    rw [if_neg hax, ih (fun hc => h (List.mem_cons_of_mem _ hc))]

theorem aget0_removeReverseDep (g : GoDepFind) (t d q : String) :
    aget0 (removeReverseDep g t d).reverseDeps q =
      if q = t then removeString (aget0 g.reverseDeps t) d
      else aget0 g.reverseDeps q := by
  unfold removeReverseDep
  cases hlk : alookup g.reverseDeps t with
  | none =>
    simp only [hlk]
    by_cases hq : q = t
    · subst hq
      rw [if_pos rfl]
      unfold aget0
      rw [hlk]
      rfl
    · rw [if_neg hq]
  | some deps =>
    simp only [hlk]
    by_cases hc : deps.contains d
    · simp only [hc, if_true, ite_true]
      rw [aget0_ainsert]
      by_cases hq : q = t
      · subst hq
        rw [if_pos rfl, if_pos rfl]
        unfold aget0
        rw [hlk]
        rfl
      · rw [if_neg hq, if_neg hq]
    · simp only [hc, Bool.false_eq_true, if_false, ite_false]
      by_cases hq : q = t
      · subst hq
        rw [if_pos rfl]
        have hm : d ∉ aget0 g.reverseDeps q := by
          unfold aget0
          rw [hlk]
          simpa using hc
        rw [removeString_not_mem _ _ hm]
      · rw [if_neg hq]

theorem aget0_addReverseDep (g : GoDepFind) (t d q : String) :
    aget0 (addReverseDep g t d).reverseDeps q =
      if q = t then addOnce (aget0 g.reverseDeps t) d
      else aget0 g.reverseDeps q := by
  unfold addReverseDep addOnce
  by_cases hc : (aget0 g.reverseDeps t).contains d
  · have hm : d ∈ aget0 g.reverseDeps t := by simpa using hc
    simp only [hc, if_true, ite_true, hm]
    by_cases hq : q = t <;> simp [hq]
  · have hm : ¬ d ∈ aget0 g.reverseDeps t := by simpa using hc
    simp only [hc, Bool.false_eq_true, if_false, ite_false, hm]
    rw [aget0_ainsert]

theorem mem_addOnce_self (l : List String) (x : String) : x ∈ addOnce l x := by
  unfold addOnce
  by_cases h : x ∈ l <;> simp [h]

/-- Folding a state-transformer that provably leaves a projection alone
leaves that projection alone. -/
theorem foldl_preserve_proj {γ : Type} (pr : GoDepFind → γ)
    (f : GoDepFind → String → GoDepFind)
    (hf : ∀ g b, pr (f g b) = pr g) (l : List String) (g : GoDepFind) :
    pr (l.foldl f g) = pr g := by
  induction l generalizing g with
  | nil => rfl
  | cons b rest ih =>
    simp only [List.foldl_cons]
    rw [ih, hf]

theorem removeReverseDep_proj {γ : Type} (pr : GoDepFind → γ)
    (hpr : ∀ (g0 : GoDepFind) (rd : List (String × List String)),
      pr { g0 with reverseDeps := rd } = pr g0)
    (g : GoDepFind) (t d : String) : pr (removeReverseDep g t d) = pr g := by
  unfold removeReverseDep
  split
  · rfl
  · split
    · exact hpr _ _
    · rfl

theorem addReverseDep_proj {γ : Type} (pr : GoDepFind → γ)
    (hpr : ∀ (g0 : GoDepFind) (rd : List (String × List String)),
      pr { g0 with reverseDeps := rd } = pr g0)
    (g : GoDepFind) (t d : String) : pr (addReverseDep g t d) = pr g := by
  unfold addReverseDep
  by_cases hc : (aget0 g.reverseDeps t).contains d
  · have hm : d ∈ aget0 g.reverseDeps t := by simpa using hc
    simp [hm]
  · simp only [hc, Bool.false_eq_true, if_false, ite_false]
    exact hpr _ _

theorem removeFold_proj {γ : Type} (pr : GoDepFind → γ)
    (hpr : ∀ (g0 : GoDepFind) (rd : List (String × List String)),
      pr { g0 with reverseDeps := rd } = pr g0)
    (old newImps : List String) (t : String) (g : GoDepFind) :
    pr (old.foldl
      (fun acc imp => if newImps.contains imp then acc else removeReverseDep acc imp t)
      g) = pr g := by
  apply foldl_preserve_proj
  intro g0 b
  by_cases hc : newImps.contains b
  · have hm : b ∈ newImps := by simpa using hc
    simp [hm]
  · simp only [hc, Bool.false_eq_true, if_false, ite_false]
    exact removeReverseDep_proj pr hpr g0 b t

theorem addFold_proj {γ : Type} (pr : GoDepFind → γ)
    (hpr : ∀ (g0 : GoDepFind) (rd : List (String × List String)),
      pr { g0 with reverseDeps := rd } = pr g0)
    (newImps old : List String) (t : String) (g : GoDepFind) :
    pr (newImps.foldl
      (fun acc imp => if old.contains imp then acc else addReverseDep acc imp t)
      g) = pr g := by
  apply foldl_preserve_proj
  intro g0 b
  by_cases hc : old.contains b
  · have hm : b ∈ old := by simpa using hc
    simp [hm]
  · simp only [hc, Bool.false_eq_true, if_false, ite_false]
    exact addReverseDep_proj pr hpr g0 b t

theorem aget0_removeFold (old newImps : List String) (t : String) (g : GoDepFind)
    (q : String) (hnd : old.Nodup) :
    aget0 (old.foldl
      (fun acc imp => if newImps.contains imp then acc else removeReverseDep acc imp t)
      g).reverseDeps q =
      if q ∈ old ∧ q ∉ newImps then removeString (aget0 g.reverseDeps q) t
      else aget0 g.reverseDeps q := by
  induction old generalizing g with
  | nil => simp
  | cons i rest ih =>
    have hni : i ∉ rest := (List.nodup_cons.mp hnd).1
    have hndr : rest.Nodup := (List.nodup_cons.mp hnd).2
    simp only [List.foldl_cons]
    by_cases hc : newImps.contains i
    · have hcm : i ∈ newImps := by simpa using hc
      rw [if_pos hc]
      rw [ih g hndr]
      by_cases hq : q = i
      · subst hq
        rw [if_neg (by simp [hni]), if_neg (by simp [hcm])]
      · by_cases hrest : q ∈ rest ∧ q ∉ newImps
        · rw [if_pos hrest, if_pos ⟨List.mem_cons_of_mem _ hrest.1, hrest.2⟩]
        · rw [if_neg hrest, if_neg ?_]
          rintro ⟨hq1, hq2⟩
          rcases List.mem_cons.mp hq1 with h' | h'
          · exact hq h'
          · exact hrest ⟨h', hq2⟩
    · have hcm : i ∉ newImps := by simpa using hc
      rw [if_neg (by simpa using hc)]
      rw [ih (removeReverseDep g i t) hndr]
      by_cases hq : q = i
      · subst hq
        rw [if_neg (by simp [hni])]
        rw [aget0_removeReverseDep, if_pos rfl]
        rw [if_pos ⟨List.mem_cons_self _ _, hcm⟩]
      · by_cases hrest : q ∈ rest ∧ q ∉ newImps
        · rw [if_pos hrest, if_pos ⟨List.mem_cons_of_mem _ hrest.1, hrest.2⟩]
          rw [aget0_removeReverseDep, if_neg hq]
        · rw [if_neg hrest, if_neg ?_]
          · rw [aget0_removeReverseDep, if_neg hq]
          · rintro ⟨hq1, hq2⟩
            rcases List.mem_cons.mp hq1 with h' | h'
            · exact hq h'
            · exact hrest ⟨h', hq2⟩

theorem aget0_addFold (newImps old : List String) (t : String) (g : GoDepFind)
    (q : String) (hnd : newImps.Nodup) :
    aget0 (newImps.foldl
      (fun acc imp => if old.contains imp then acc else addReverseDep acc imp t)
      g).reverseDeps q =
      if q ∈ newImps ∧ q ∉ old then addOnce (aget0 g.reverseDeps q) t
      else aget0 g.reverseDeps q := by
  induction newImps generalizing g with
  | nil => simp
  | cons i rest ih =>
    have hni : i ∉ rest := (List.nodup_cons.mp hnd).1
    have hndr : rest.Nodup := (List.nodup_cons.mp hnd).2
    simp only [List.foldl_cons]
    by_cases hc : old.contains i
    · have hcm : i ∈ old := by simpa using hc
      rw [if_pos hc]
      rw [ih g hndr]
      by_cases hq : q = i
      · subst hq
        rw [if_neg (by simp [hni]), if_neg (by simp [hcm])]
      · by_cases hrest : q ∈ rest ∧ q ∉ old
        · rw [if_pos hrest, if_pos ⟨List.mem_cons_of_mem _ hrest.1, hrest.2⟩]
        · rw [if_neg hrest, if_neg ?_]
          rintro ⟨hq1, hq2⟩
          rcases List.mem_cons.mp hq1 with h' | h'
          · exact hq h'
          · exact hrest ⟨h', hq2⟩
    · have hcm : i ∉ old := by simpa using hc
      rw [if_neg (by simpa using hc)]
      rw [ih (addReverseDep g i t) hndr]
      by_cases hq : q = i
      · subst hq
        rw [if_neg (by simp [hni])]
        rw [aget0_addReverseDep, if_pos rfl]
        rw [if_pos ⟨List.mem_cons_self _ _, hcm⟩]
      · by_cases hrest : q ∈ rest ∧ q ∉ old
        · rw [if_pos hrest, if_pos ⟨List.mem_cons_of_mem _ hrest.1, hrest.2⟩]
          rw [aget0_addReverseDep, if_neg hq]
        · rw [if_neg hrest, if_neg ?_]
          · rw [aget0_addReverseDep, if_neg hq]
          · rintro ⟨hq1, hq2⟩
            rcases List.mem_cons.mp hq1 with h' | h'
            · exact hq h'
            · exact hrest ⟨h', hq2⟩

/-- Specialised projection-stability corollaries for the two reverse-index
diff folds of `refreshPackageCache`. -/
theorem removeFold_dg (old newImps : List String) (t : String) (g : GoDepFind) :
    (old.foldl
      (fun acc imp => if newImps.contains imp then acc else removeReverseDep acc imp t)
      g).dependencyGraph = g.dependencyGraph :=
  removeFold_proj (fun s => s.dependencyGraph) (fun _ _ => rfl) old newImps t g

theorem removeFold_fpp (old newImps : List String) (t : String) (g : GoDepFind) :
    (old.foldl
      (fun acc imp => if newImps.contains imp then acc else removeReverseDep acc imp t)
      g).filePathToPackage = g.filePathToPackage :=
  removeFold_proj (fun s => s.filePathToPackage) (fun _ _ => rfl) old newImps t g

theorem removeFold_ftp (old newImps : List String) (t : String) (g : GoDepFind) :
    (old.foldl
      (fun acc imp => if newImps.contains imp then acc else removeReverseDep acc imp t)
      g).fileToPackages = g.fileToPackages :=
  removeFold_proj (fun s => s.fileToPackages) (fun _ _ => rfl) old newImps t g

theorem removeFold_mains (old newImps : List String) (t : String) (g : GoDepFind) :
    (old.foldl
      (fun acc imp => if newImps.contains imp then acc else removeReverseDep acc imp t)
      g).mainPackages = g.mainPackages :=
  removeFold_proj (fun s => s.mainPackages) (fun _ _ => rfl) old newImps t g

theorem removeFold_pc (old newImps : List String) (t : String) (g : GoDepFind) :
    (old.foldl
      (fun acc imp => if newImps.contains imp then acc else removeReverseDep acc imp t)
      g).packageCache = g.packageCache :=
  removeFold_proj (fun s => s.packageCache) (fun _ _ => rfl) old newImps t g

theorem addFold_dg (newImps old : List String) (t : String) (g : GoDepFind) :
    (newImps.foldl
      (fun acc imp => if old.contains imp then acc else addReverseDep acc imp t)
      g).dependencyGraph = g.dependencyGraph :=
  addFold_proj (fun s => s.dependencyGraph) (fun _ _ => rfl) newImps old t g

theorem addFold_fpp (newImps old : List String) (t : String) (g : GoDepFind) :
    (newImps.foldl
      (fun acc imp => if old.contains imp then acc else addReverseDep acc imp t)
      g).filePathToPackage = g.filePathToPackage :=
  addFold_proj (fun s => s.filePathToPackage) (fun _ _ => rfl) newImps old t g

theorem addFold_ftp (newImps old : List String) (t : String) (g : GoDepFind) :
    (newImps.foldl
      (fun acc imp => if old.contains imp then acc else addReverseDep acc imp t)
      g).fileToPackages = g.fileToPackages :=
  addFold_proj (fun s => s.fileToPackages) (fun _ _ => rfl) newImps old t g

theorem addFold_mains (newImps old : List String) (t : String) (g : GoDepFind) :
    (newImps.foldl
      (fun acc imp => if old.contains imp then acc else addReverseDep acc imp t)
      g).mainPackages = g.mainPackages :=
  addFold_proj (fun s => s.mainPackages) (fun _ _ => rfl) newImps old t g

theorem addFold_pc (newImps old : List String) (t : String) (g : GoDepFind) :
    (newImps.foldl
      (fun acc imp => if old.contains imp then acc else addReverseDep acc imp t)
      g).packageCache = g.packageCache :=
  addFold_proj (fun s => s.packageCache) (fun _ _ => rfl) newImps old t g

/-! ## C6 -/

/-- C6: a write event on a file that is not the handler's entry point
re-resolves only the owning unit's declared dependencies and applies the
diff-based edge update: the unit's forward edge list is replaced by the
newly resolved imports, the unit leaves the reverse lists of imports that
disappeared and enters those of imports that appeared, every other
package's forward edges, both file indices, and the main-package list are
untouched, and no full rescan occurs (nothing beyond the one re-imported
package is consulted). -/
theorem C6_nonmain_write_diff_update (env : Env) (g : GoDepFind)
    (f h target : String) (pkg newPkg : Pkg) (old newImps : List String)
    (hpop : g.cachedModule = true)
    (hnotself : ¬ (h ≠ "" ∧ isSameFile env g f h = true))
    (hscan : scanCacheForFile env g.testImports (absIn env f) g.packageCache =
      some target)
    (htne : target ≠ "")
    (hpc : alookup g.packageCache target = some pkg)
    (himp : env.importDir pkg.dir = some newPkg)
    (hold : old = aget0 g.dependencyGraph target)
    (hnew : newImps = newPkg.imports ++
      (if g.testImports then newPkg.testImports ++ newPkg.xtestImports else []))
    (hndo : old.Nodup) (hndn : newImps.Nodup) :
    (updateCacheForFileWithContext env g f "write" h).1 = .ok () ∧
    aget0 (updateCacheForFileWithContext env g f "write" h).2.dependencyGraph target =
      newImps ∧
    (∀ P, P ≠ target →
      aget0 (updateCacheForFileWithContext env g f "write" h).2.dependencyGraph P =
        aget0 g.dependencyGraph P) ∧
    (∀ Q ∈ old, Q ∉ newImps →
      aget0 (updateCacheForFileWithContext env g f "write" h).2.reverseDeps Q =
        removeString (aget0 g.reverseDeps Q) target) ∧
    (∀ Q ∈ newImps, Q ∉ old →
      target ∈ aget0 (updateCacheForFileWithContext env g f "write" h).2.reverseDeps Q) ∧
    (∀ Q, ¬ (Q ∈ old ∧ Q ∉ newImps) → ¬ (Q ∈ newImps ∧ Q ∉ old) →
      aget0 (updateCacheForFileWithContext env g f "write" h).2.reverseDeps Q =
        aget0 g.reverseDeps Q) ∧
    (updateCacheForFileWithContext env g f "write" h).2.filePathToPackage =
      g.filePathToPackage ∧
    (updateCacheForFileWithContext env g f "write" h).2.fileToPackages =
      g.fileToPackages ∧
    (updateCacheForFileWithContext env g f "write" h).2.mainPackages =
      g.mainPackages ∧
    (∀ P, P ≠ target →
      alookup (updateCacheForFileWithContext env g f "write" h).2.packageCache P =
        alookup g.packageCache P) := by
  have hfind : findPackageContainingFileByPath env g f = (.ok target, g) := by
    simp [findPackageContainingFileByPath, ensureCacheInitialized, hpop, hscan]
  have hstep : updateCacheForFileWithContext env g f "write" h =
      (.ok (),
       newImps.foldl
         (fun acc imp => if old.contains imp then acc else addReverseDep acc imp target)
         (old.foldl
           (fun acc imp =>
             if newImps.contains imp then acc else removeReverseDep acc imp target)
           ({ g with
               packageCache := ainsert g.packageCache target newPkg
               dependencyGraph := ainsert g.dependencyGraph target newImps }))) := by
    simp only [updateCacheForFileWithContext, ensureCacheInitialized, hpop, if_true,
      ite_true]
    rw [if_neg hnotself]
    simp only [refreshPackageCache, hfind]
    rw [if_neg htne]
    simp only [hpc, himp]
    rw [← hold, ← hnew, hpop]
  rw [hstep]
  simp only []
  refine ⟨trivial, ?_, ?_, ?_, ?_, ?_, ?_, ?_, ?_, ?_⟩
  · rw [addFold_dg, removeFold_dg]
    show aget0 (ainsert g.dependencyGraph target newImps) target = newImps
    rw [aget0_ainsert, if_pos rfl]
  · intro P hP
    rw [addFold_dg, removeFold_dg]
    show aget0 (ainsert g.dependencyGraph target newImps) P = aget0 g.dependencyGraph P
    rw [aget0_ainsert, if_neg hP]
  · intro Q hQo hQn
    rw [aget0_addFold _ _ _ _ _ hndn, if_neg (by rintro ⟨h1, _⟩; exact hQn h1)]
    rw [aget0_removeFold _ _ _ _ _ hndo, if_pos ⟨hQo, hQn⟩]
  · intro Q hQn hQo
    rw [aget0_addFold _ _ _ _ _ hndn, if_pos ⟨hQn, hQo⟩]
    exact mem_addOnce_self _ _
  · intro Q hc1 hc2
    rw [aget0_addFold _ _ _ _ _ hndn, if_neg hc2]
    rw [aget0_removeFold _ _ _ _ _ hndo, if_neg hc1]
  · rw [addFold_fpp, removeFold_fpp]
  · rw [addFold_ftp, removeFold_ftp]
  · rw [addFold_mains, removeFold_mains]
  · intro P hP
    rw [addFold_pc, removeFold_pc]
    show alookup (ainsert g.packageCache target newPkg) P = alookup g.packageCache P
    rw [alookup_ainsert, if_neg hP]

theorem C6_nonmain_write_diff_update_witness :
    (scanCacheForFile c6Env scnG.testImports (absIn c6Env "/r/x/x.go")
       scnG.packageCache = some "m/x" ∧
     c6Env.importDir xPkg.dir = some xPkgB) ∧
    (updateCacheForFileWithContext c6Env scnG "/r/x/x.go" "write"
       "pwa/main.server.go").1 = .ok () ∧
    aget0 (updateCacheForFileWithContext c6Env scnG "/r/x/x.go" "write"
       "pwa/main.server.go").2.dependencyGraph "m/x" = ["m/y"] ∧
    "m/x" ∈ aget0 (updateCacheForFileWithContext c6Env scnG "/r/x/x.go" "write"
       "pwa/main.server.go").2.reverseDeps "m/y" := by
  have T := C6_nonmain_write_diff_update c6Env scnG "/r/x/x.go" "pwa/main.server.go"
    "m/x" xPkg xPkgB [] ["m/y"]
    rfl (by decide) (by decide) (by decide) (by decide) (by decide) (by decide)
    (by decide) (by decide) (by decide)
  obtain ⟨h1, h2, h3, h4, h5, h6, h7, h8, h9, h10⟩ := T
  exact ⟨⟨by decide, by decide⟩, h1, h2, h5 "m/y" (by decide) (by decide)⟩

theorem C5_entry_point_write_full_rebuild_witness :
    (dynG0.cachedModule = true ∧
     isSameFile dynEnv1 dynG0 "/r/app/main.go" "app/main.go" = true) ∧
    updateCacheForFileWithContext dynEnv1 dynG0 "/r/app/main.go" "write" "app/main.go" =
      rebuildCache dynEnv1 dynG0 :=
  ⟨⟨by decide, by decide⟩,
   C5_entry_point_write_full_rebuild.1 dynEnv1 dynG0 "/r/app/main.go" "app/main.go"
     (by decide) (by decide) (by decide)⟩

end DepFind
